import Mathlib

/-!
# mkmbr: the MBR layout assembler and sector-range validator

A shallow embedding of `mkmbr.c`, followed by theorems about it.

Conventions of the embedding

* The data model is LP64 (GNU/Linux on a 64-bit machine): `long` and
  `unsigned long` are 64 bits wide, `uint32_t` is 32 bits wide.  Unsigned
  arithmetic is carried out on `Nat` with an explicit reduction modulo
  `2 ^ 64`; the conversion `(uint32_t)x` is `x % 2 ^ 32`.
* `struct partition_t` and `struct mbr_t` are records; `mbr_t.bytes` is the
  object representation that `write(fd, &mbr, sizeof(mbr))` hands to the
  kernel (the structures are packed and the build is little endian only).
* The C library and the kernel are parameters: `Sys` holds what `open`,
  `fstat`, `write` and `close` answer, and whether `strtol` reports `EINVAL`
  when it finds no digits (ISO C leaves that to the implementation).
* `argv` is the list of the `argc` argument strings; reading `argv[i]` with
  `i >= argc` is a fault.
-/

namespace Mkmbr

/-! ## Constants -/

/-- Number of values of an `unsigned long` (LP64). -/
def ULONG_MOD : Nat := 2 ^ 64

/-- Largest `long`. -/
def LONG_MAX : Int := 2 ^ 63 - 1

/-- Smallest `long`. -/
def LONG_MIN : Int := -(2 ^ 63)

/-- Number of values of a `uint32_t`. -/
def UINT32_MOD : Nat := 2 ^ 32

/-- The errno value `EINVAL` on Linux. -/
def EINVAL : Nat := 22

/-- The errno value `ERANGE` on Linux. -/
def ERANGE : Nat := 34

/-- Partition type written into every populated entry: `#define PARTITION_TYPE 0x83`. -/
def PARTITION_TYPE : Nat := 0x83

/-- Boot signature: `#define MBR_BOOT_SIGNATURE 0xAA55`. -/
def MBR_BOOT_SIGNATURE : Nat := 0xAA55

/-! ## The on-disk structures -/

/-- Record for `struct PACKED partition_t`. -/
structure partition_t where
  bootable_flag : Nat
  first_sector_chs : List Nat
  type : Nat
  last_sector_chs : List Nat
  first_sector_lba : Nat
  sectors_num_lba : Nat
  deriving DecidableEq, Repr

/-- Record for `struct PACKED mbr_t`. -/
structure mbr_t where
  bootstrap : List Nat
  partitions : List partition_t
  boot_signature : Nat
  deriving DecidableEq, Repr

/-- The all-zero partition entry, as left by `memset`. -/
def partition_zero : partition_t :=
  { bootable_flag := 0, first_sector_chs := [0, 0, 0], type := 0,
    last_sector_chs := [0, 0, 0], first_sector_lba := 0, sectors_num_lba := 0 }

/-- Embedding of `mbr_init`: `memset(mbr, 0, sizeof(struct mbr_t))`, then the
boot signature. -/
def mbr_init : mbr_t :=
  { bootstrap := List.replicate 446 0,
    partitions := List.replicate 4 partition_zero,
    boot_signature := MBR_BOOT_SIGNATURE }

/-- Little-endian object representation of a `uint16_t`. -/
def le16 (v : Nat) : List Nat := [v % 256, v / 256 % 256]

/-- Little-endian object representation of a `uint32_t`. -/
def le32 (v : Nat) : List Nat :=
  [v % 256, v / 256 % 256, v / 65536 % 256, v / 16777216 % 256]

/-- The 16 bytes of a packed `struct partition_t`. -/
def partition_t.bytes (p : partition_t) : List Nat :=
  [p.bootable_flag] ++ p.first_sector_chs ++ [p.type] ++ p.last_sector_chs
    ++ le32 p.first_sector_lba ++ le32 p.sectors_num_lba

/-- The bytes of a packed `struct mbr_t`: what `write` receives. -/
def mbr_t.bytes (m : mbr_t) : List Nat :=
  m.bootstrap ++ (m.partitions.map partition_t.bytes).flatten ++ le16 m.boot_signature

/-- The `len` bytes of `img` that start at offset `off`. -/
def slice (img : List Nat) (off len : Nat) : List Nat := (img.drop off).take len

/-- Reading a little-endian 32-bit word at offset `off` of an image. -/
def read32 (img : List Nat) (off : Nat) : Nat :=
  img.getD off 0 + 256 * img.getD (off + 1) 0 + 65536 * img.getD (off + 2) 0
    + 16777216 * img.getD (off + 3) 0

/-! ## The C library: `strtol(nptr, NULL, 0)` -/

/-- The C locale's `isspace`. -/
def isspace (c : Char) : Bool :=
  c.toNat = 32 || (9 ≤ c.toNat && c.toNat ≤ 13)

/-- Value of a character as a digit, for bases up to 36. -/
def digitVal (c : Char) : Option Nat :=
  if 48 ≤ c.toNat ∧ c.toNat ≤ 57 then some (c.toNat - 48)
  else if 97 ≤ c.toNat ∧ c.toNat ≤ 122 then some (c.toNat - 97 + 10)
  else if 65 ≤ c.toNat ∧ c.toNat ≤ 90 then some (c.toNat - 65 + 10)
  else none

/-- Whether `c` is a digit of base `base`. -/
def isDigitOf (base : Nat) (c : Char) : Bool :=
  match digitVal c with
  | some d => decide (d < base)
  | none => false

/-- The longest run of base-`base` digits at the head of `s`, as values. -/
def takeDigits (base : Nat) : List Char → List Nat
  | [] => []
  | c :: cs =>
    match digitVal c with
    | some d => if d < base then d :: takeDigits base cs else []
    | none => []

/-- Optional sign of the subject sequence: whether it is negative, and the rest. -/
def splitSign : List Char → Bool × List Char
  | c :: cs => if c.toNat = 45 then (true, cs) else if c.toNat = 43 then (false, cs) else (false, c :: cs)
  | [] => (false, [])

/-- Base detection of `strtol` with base 0: `0x`/`0X` before a hexadecimal
digit selects 16, another leading `0` selects 8, anything else 10. -/
def splitBase : List Char → Nat × List Char
  | c :: x :: h :: cs =>
    if c.toNat = 48 ∧ (x.toNat = 120 ∨ x.toNat = 88) ∧ isDigitOf 16 h = true then (16, h :: cs)
    else if c.toNat = 48 then (8, c :: x :: h :: cs)
    else (10, c :: x :: h :: cs)
  | c :: cs => if c.toNat = 48 then (8, c :: cs) else (10, c :: cs)
  | [] => (10, [])

/-- Model of the C library call `strtol(nptr, NULL, 0)`: the `long` returned and
the value stored into `errno`, if any.  White space is skipped, an optional sign
and base prefix are read, the longest run of digits is converted and whatever
follows is ignored (the end pointer is `NULL`).  A value outside `long` is
clamped and reported as `ERANGE`.  With no digits at all the result is 0, and
`errno` becomes `EINVAL` only on a library that does so (`noconvEinval`). -/
def strtol (noconvEinval : Bool) (nptr : String) : Int × Option Nat :=
  let s := splitSign (nptr.toList.dropWhile isspace)
  let b := splitBase s.2
  let ds := takeDigits b.1 b.2
  let mag : Nat := ds.foldl (fun acc d => acc * b.1 + d) 0
  if ds = [] then (0, if noconvEinval then some EINVAL else none)
  else if s.1 then
    (if (mag : Int) > -LONG_MIN then (LONG_MIN, some ERANGE) else (-(mag : Int), none))
  else
    (if (mag : Int) > LONG_MAX then (LONG_MAX, some ERANGE) else ((mag : Int), none))

/-- Conversion of a `long` to `unsigned long`. -/
def toULong (v : Int) : Nat := (v % (ULONG_MOD : Int)).toNat

/-! ## The environment of a run -/

/-- What the operating system and the C library answer during one run. -/
structure Sys where
  /-- `some e`: `open` fails and sets `errno` to `e`. -/
  open_fail : Option Nat
  /-- `some e`: `fstat` fails and sets `errno` to `e`. -/
  fstat_fail : Option Nat
  /-- The `st_size` reported by `fstat`, in bytes. -/
  st_size : Nat
  /-- Value of `errno` when the allocator loop is entered (0 at program start). -/
  errno_entry : Nat
  /-- Return value of `write`. -/
  write_ret : Int
  /-- The `errno` set by a failing `write` (one that returns a negative value). -/
  write_errno : Nat
  /-- `some e`: `close` fails and sets `errno` to `e`. -/
  close_fail : Option Nat
  /-- Whether `strtol` sets `EINVAL` when no conversion is performed. -/
  noconvEinval : Bool
  deriving DecidableEq, Repr

/-- POSIX: a failing call never stores 0 into `errno`. -/
def Sys.errnoSane (sys : Sys) : Prop :=
  sys.open_fail ≠ some 0 ∧ sys.fstat_fail ≠ some 0 ∧ sys.close_fail ≠ some 0

instance (sys : Sys) : Decidable sys.errnoSane := by
  unfold Sys.errnoSane; exact inferInstance

/-! ## The allocator loop of `main` -/

/-- The local variables of `main` that the loop reads or writes, `errno`, and
`log`, a history variable that `main` does not have: the pairs `(start, size)`
held by the variables `start` and `size` at each accepted request, oldest
first.  Nothing in the program reads `log`. -/
structure LoopState where
  argn : Nat
  partn : Nat
  start : Nat
  size : Nat
  next : Nat
  errno : Nat
  mbr : mbr_t
  log : List (Nat × Nat)
  deriving DecidableEq, Repr

/-- How the loop, or one pass through its body, ends. -/
inductive Outcome where
  /-- Normal completion, with the variables at that point. -/
  | done (st : LoopState)
  /-- The body took `goto err_exit`. -/
  | error (st : LoopState)
  /-- An element of `argv` past `argc` was read. -/
  | fault
  /-- The iteration budget of the model was used up. -/
  | timeout
  deriving DecidableEq, Repr

/-- State on entry to the loop: `argn = 2`, `partn = 0`, `next = 1`, the image
as `mbr_init` leaves it.  `start` and `size` are not initialised by `main`; they
are written before they are read, and are 0 here. -/
def loopInit (errno : Nat) : LoopState :=
  { argn := 2, partn := 0, start := 0, size := 0, next := 1, errno := errno,
    mbr := mbr_init, log := [] }

/-- Lines 124-131: resolution of the start token. -/
def resolveStart (noconvEinval : Bool) (tok : String) (st : LoopState) : Outcome :=
  if tok = "auto" ∧ st.next > 0 then
    Outcome.done { st with start := st.next }
  else
    let r := strtol noconvEinval tok
    let st1 := { st with errno := r.2.getD 0, start := toULong r.1 }
    if st1.errno ≠ 0 then Outcome.error st1 else Outcome.done st1

/-- Lines 132-139: resolution of the length token. -/
def resolveSize (noconvEinval : Bool) (blkdev_size : Nat) (tok : String) (st : LoopState) :
    Outcome :=
  if tok = "auto" then
    Outcome.done { st with size := (blkdev_size + ULONG_MOD - st.start) % ULONG_MOD }
  else
    let r := strtol noconvEinval tok
    let st1 := { st with errno := r.2.getD 0, size := toULong r.1 }
    if st1.errno ≠ 0 then Outcome.error st1 else Outcome.done st1

/-- Assignment to the three fields of `mbr.partitions[partn]` (lines 144-146). -/
def setPartition (m : mbr_t) (partn start size : Nat) : mbr_t :=
  match m.partitions[partn]? with
  | some p =>
    let q : partition_t :=
      { p with first_sector_lba := start % UINT32_MOD,
               sectors_num_lba := size % UINT32_MOD,
               type := PARTITION_TYPE }
    { m with partitions := m.partitions.set partn q }
  | none => m

/-- Lines 140-148: the geometry check, the store into the table and the
advance of the cursor. -/
def commit (blkdev_size : Nat) (st : LoopState) : Outcome :=
  if st.start < st.next ∨ (st.start + st.size) % ULONG_MOD > blkdev_size then
    Outcome.error { st with errno := EINVAL }
  else
    Outcome.done
      { st with
        mbr := setPartition st.mbr st.partn st.start st.size,
        next := (st.start + st.size) % ULONG_MOD,
        partn := st.partn + 1,
        log := st.log ++ [(st.start, st.size)] }

/-- One pass through the body of the `for` loop (lines 124-148). -/
def body (noconvEinval : Bool) (argv : List String) (blkdev_size : Nat) (st : LoopState) :
    Outcome :=
  match argv[st.argn]? with
  | none => Outcome.fault
  | some a =>
    match resolveStart noconvEinval a st with
    | Outcome.done st1 =>
      match argv[st.argn + 1]? with
      | none => Outcome.fault
      | some b =>
        match resolveSize noconvEinval blkdev_size b st1 with
        | Outcome.done st2 => commit blkdev_size st2
        | o => o
    | o => o

/-- The condition of the `for` loop: `argn < argc && partn < 4 && next < blkdev_size`. -/
def guard (argv : List String) (blkdev_size : Nat) (st : LoopState) : Bool :=
  decide (st.argn < argv.length) && decide (st.partn < 4) && decide (st.next < blkdev_size)

/-- The `for` loop of `main` (line 123), run for at most `fuel` passes. -/
def loop (noconvEinval : Bool) (argv : List String) (blkdev_size : Nat) :
    Nat → LoopState → Outcome
  | 0, st => if guard argv blkdev_size st then Outcome.timeout else Outcome.done st
  | fuel + 1, st =>
    if guard argv blkdev_size st then
      match body noconvEinval argv blkdev_size st with
      | Outcome.done st1 =>
        loop noconvEinval argv blkdev_size fuel { st1 with argn := st1.argn + 2 }
      | o => o
    else Outcome.done st

/-- The allocator: the loop of `main` from its initial state on a device of
`blkdev_size` sectors.  Every pass increments `partn` and the loop stops at
`partn = 4`, so four passes are all it can make (`loop_fuel`). -/
def alloc (noconvEinval : Bool) (argv : List String) (blkdev_size : Nat) (errno : Nat) :
    Outcome :=
  loop noconvEinval argv blkdev_size 4 (loopInit errno)

/-! ## `main` -/

/-- What a run of `main` does that can be seen from outside. -/
structure Result where
  /-- Return value of `main`; `none` if `main` does not return. -/
  exit : Option Nat
  /-- Whether `print_usage` ran. -/
  usage : Bool
  /-- The buffer passed to `write` on the device, if `write` was called. -/
  written : Option (List Nat)
  /-- Whether the descriptor was closed by `main`. -/
  closed : Bool
  deriving DecidableEq, Repr

/-- The label `err_exit`: the descriptor is open here, so it is closed, and
`main` returns `errno`. -/
def err_exit (sys : Sys) (errno : Nat) (written : Option (List Nat)) : Result :=
  { exit := some (sys.close_fail.getD errno), usage := false, written := written,
    closed := true }

/-- Embedding of `main`. -/
def main (sys : Sys) (argv : List String) : Result :=
  let argc := argv.length
  if argc < 4 ∨ argc % 2 ≠ 0 then
    { exit := some EINVAL, usage := true, written := none, closed := false }
  else
    match sys.open_fail with
    | some e => { exit := some e, usage := false, written := none, closed := false }
    | none =>
      match sys.fstat_fail with
      | some e => err_exit sys e none
      | none =>
        let blkdev_size := (sys.st_size / 512) % ULONG_MOD
        match alloc sys.noconvEinval argv blkdev_size sys.errno_entry with
        | Outcome.done st =>
          if sys.write_ret ≠ 0 then
            err_exit sys (if sys.write_ret < 0 then sys.write_errno else st.errno)
              (some st.mbr.bytes)
          else
            { exit := some 0, usage := false, written := some st.mbr.bytes, closed := false }
        | Outcome.error st => err_exit sys st.errno none
        | Outcome.fault => { exit := none, usage := false, written := none, closed := false }
        | Outcome.timeout => { exit := none, usage := false, written := none, closed := false }

/-- A regular file of `st_size` bytes used as the device, on a system where
every call succeeds, `write` writes the whole buffer, `errno` is still 0 when the
loop starts, and `strtol` leaves `errno` alone when it finds no digits. -/
def sysFile (st_size : Nat) : Sys :=
  { open_fail := none, fstat_fail := none, st_size := st_size, errno_entry := 0,
    write_ret := 512, write_errno := 0, close_fail := none, noconvEinval := false }

/-- A device of 2048 sectors: a regular file of 1 048 576 bytes. -/
def sys2048 : Sys := sysFile 1048576

/-! ## Predicates used to state the invariants of the loop -/

/-- The entry that the loop stores for an accepted pair `(start, size)`: the
two values converted to `uint32_t`, the type byte, and zero elsewhere. -/
def entryOf (r : Nat × Nat) : partition_t :=
  { partition_zero with
    type := PARTITION_TYPE,
    first_sector_lba := r.1 % UINT32_MOD,
    sectors_num_lba := r.2 % UINT32_MOD }

/-- The partition table after the pairs of `log` have been accepted. -/
def tableOf (log : List (Nat × Nat)) : List partition_t :=
  log.map entryOf ++ List.replicate (4 - log.length) partition_zero

/-- Invariant of the loop on the image: the table holds the accepted pairs in
order and nothing else, and `partn` counts them. -/
def TableInv (st : LoopState) : Prop :=
  st.mbr = { bootstrap := List.replicate 446 0, partitions := tableOf st.log,
             boot_signature := MBR_BOOT_SIGNATURE } ∧
  st.log.length = st.partn ∧ st.partn ≤ 4

/-- The checks passed by a sequence of accepted pairs: starting from cursor
`cur`, each pair `(s, z)` had `cursor <= s` and `(s + z) mod 2^64 <= blkdev_size`,
and moved the cursor to `(s + z) mod 2^64`; `nxt` is the cursor at the end. -/
def Chain (blkdev_size : Nat) : Nat → List (Nat × Nat) → Nat → Prop
  | cur, [], nxt => nxt = cur
  | cur, r :: rest, nxt =>
    cur ≤ r.1 ∧ (r.1 + r.2) % ULONG_MOD ≤ blkdev_size ∧
      Chain blkdev_size ((r.1 + r.2) % ULONG_MOD) rest nxt


/-- The records of the image: the fields `(first_sector_lba, sectors_num_lba)`
of the populated entries (those below `partn`), in table order. -/
def records (st : LoopState) : List (Nat × Nat) :=
  (st.mbr.partitions.take st.partn).map fun p => (p.first_sector_lba, p.sectors_num_lba)

/-- The variables at the head of pass number `k` of the loop (`k = 0` is the
first), when the run gets that far: the passes before it all completed. -/
def headState (noconvEinval : Bool) (argv : List String) (blkdev_size errno : Nat) :
    Nat → Option LoopState
  | 0 => some (loopInit errno)
  | k + 1 =>
    match headState noconvEinval argv blkdev_size errno k with
    | some st =>
      if guard argv blkdev_size st then
        match body noconvEinval argv blkdev_size st with
        | Outcome.done st1 => some { st1 with argn := st1.argn + 2 }
        | _ => none
      else none
    | none => none

/-! ## One pass through the body -/

theorem resolveStart_done {cfg : Bool} {tok : String} {st st1 : LoopState}
    (h : resolveStart cfg tok st = Outcome.done st1) :
    ∃ s e, st1 = { st with start := s, errno := e } := by
  unfold resolveStart at h
  split at h
  · injection h with h; exact ⟨st.next, st.errno, h.symm⟩
  · simp only at h
    split at h
    · cases h
    · injection h with h; exact ⟨_, _, h.symm⟩

theorem resolveSize_done {cfg : Bool} {C : Nat} {tok : String} {st st1 : LoopState}
    (h : resolveSize cfg C tok st = Outcome.done st1) :
    ∃ z e, st1 = { st with size := z, errno := e } := by
  unfold resolveSize at h
  split at h
  · injection h with h; exact ⟨_, st.errno, h.symm⟩
  · simp only at h
    split at h
    · cases h
    · injection h with h; exact ⟨_, _, h.symm⟩

theorem commit_done {C : Nat} {st st1 : LoopState} (h : commit C st = Outcome.done st1) :
    st.next ≤ st.start ∧ (st.start + st.size) % ULONG_MOD ≤ C ∧
    st1 = { st with
        mbr := setPartition st.mbr st.partn st.start st.size,
        next := (st.start + st.size) % ULONG_MOD,
        partn := st.partn + 1,
        log := st.log ++ [(st.start, st.size)] } := by
  unfold commit at h
  split at h
  · cases h
  · injection h with h
    exact ⟨by omega, by omega, h.symm⟩

/-- A pass that completes has accepted a pair `(s, z)` with `next <= s` and
`(s + z) mod 2^64 <= blkdev_size`, and changed the variables as shown. -/
theorem body_done {cfg : Bool} {argv : List String} {C : Nat} {st st1 : LoopState}
    (h : body cfg argv C st = Outcome.done st1) :
    ∃ s z e, st.next ≤ s ∧ (s + z) % ULONG_MOD ≤ C ∧
      st1 = { argn := st.argn, partn := st.partn + 1, start := s, size := z,
              next := (s + z) % ULONG_MOD, errno := e,
              mbr := setPartition st.mbr st.partn s z, log := st.log ++ [(s, z)] } := by
  unfold body at h
  split at h
  · cases h
  · split at h
    · rename_i sa hs
      split at h
      · cases h
      · split at h
        · rename_i sb hz
          obtain ⟨s, e1, rfl⟩ := resolveStart_done hs
          obtain ⟨z, e2, rfl⟩ := resolveSize_done hz
          obtain ⟨h1, h2, rfl⟩ := commit_done h
          exact ⟨s, z, e2, h1, h2, rfl⟩
        · rename_i hne
          exact (hne _ h).elim
    · rename_i hne
      exact (hne _ h).elim

theorem resolveStart_error {cfg : Bool} {tok : String} {st st1 : LoopState}
    (h : resolveStart cfg tok st = Outcome.error st1) : st1.errno ≠ 0 := by
  unfold resolveStart at h
  split at h
  · cases h
  · simp only at h
    split at h
    · rename_i hne
      injection h with h; subst h; exact hne
    · cases h

theorem resolveSize_error {cfg : Bool} {C : Nat} {tok : String} {st st1 : LoopState}
    (h : resolveSize cfg C tok st = Outcome.error st1) : st1.errno ≠ 0 := by
  unfold resolveSize at h
  split at h
  · cases h
  · simp only at h
    split at h
    · rename_i hne
      injection h with h; subst h; exact hne
    · cases h

theorem commit_error {C : Nat} {st st1 : LoopState} (h : commit C st = Outcome.error st1) :
    st1.errno = EINVAL := by
  unfold commit at h
  split at h
  · injection h with h; subst h; rfl
  · cases h

/-- A pass that takes `goto err_exit` leaves a non-zero `errno`. -/
theorem body_error {cfg : Bool} {argv : List String} {C : Nat} {st st1 : LoopState}
    (h : body cfg argv C st = Outcome.error st1) : st1.errno ≠ 0 := by
  unfold body at h
  split at h
  · cases h
  · split at h
    · split at h
      · cases h
      · split at h
        · rw [commit_error h]; decide
        · exact resolveSize_error h
    · exact resolveStart_error h

/-! ## Induction over the loop -/

/-- A property of the variables that holds on entry and is kept by every pass
holds when the loop completes, and the loop condition is then false. -/
theorem loop_done_induct {cfg : Bool} {argv : List String} {C : Nat} (P : LoopState → Prop)
    (hstep : ∀ st st1, P st → guard argv C st = true →
      body cfg argv C st = Outcome.done st1 → P { st1 with argn := st1.argn + 2 }) :
    ∀ (fuel : Nat) (st st2 : LoopState), P st →
      loop cfg argv C fuel st = Outcome.done st2 → P st2 ∧ guard argv C st2 = false := by
  intro fuel
  induction fuel with
  | zero =>
    intro st st2 hP h
    unfold loop at h
    split at h
    · cases h
    · rename_i hg
      injection h with h; subst h
      exact ⟨hP, by simpa using hg⟩
  | succ n ih =>
    intro st st2 hP h
    unfold loop at h
    split at h
    · rename_i hg
      split at h
      · rename_i st1 hb
        exact ih _ _ (hstep st st1 hP hg hb) h
      · rename_i hne
        exact (hne _ h).elim
    · rename_i hg
      injection h with h; subst h
      exact ⟨hP, by simpa using hg⟩

/-- When the loop ends at `err_exit`, `errno` is not 0. -/
theorem loop_error {cfg : Bool} {argv : List String} {C : Nat} :
    ∀ (fuel : Nat) (st st2 : LoopState),
      loop cfg argv C fuel st = Outcome.error st2 → st2.errno ≠ 0 := by
  intro fuel
  induction fuel with
  | zero =>
    intro st st2 h
    unfold loop at h
    split at h <;> cases h
  | succ n ih =>
    intro st st2 h
    unfold loop at h
    split at h
    · split at h
      · exact ih _ _ h
      · rename_i o hne
        exact body_error h
    · cases h

theorem tableInv_init (e : Nat) : TableInv (loopInit e) := by
  exact ⟨rfl, rfl, Nat.zero_le 4⟩

theorem setPartition_tableOf (log : List (Nat × Nat)) (s z : Nat) (h : log.length < 4) :
    setPartition { bootstrap := List.replicate 446 0, partitions := tableOf log,
                   boot_signature := MBR_BOOT_SIGNATURE } log.length s z
      = { bootstrap := List.replicate 446 0, partitions := tableOf (log ++ [(s, z)]),
          boot_signature := MBR_BOOT_SIGNATURE } := by
  rcases log with _ | ⟨a, _ | ⟨b, _ | ⟨c, _ | ⟨d, l⟩⟩⟩⟩
  · rfl
  · rfl
  · rfl
  · rfl
  · simp only [List.length_cons] at h; omega

theorem tableInv_step {cfg : Bool} {argv : List String} {C : Nat} {st st1 : LoopState}
    (hP : TableInv st) (hg : guard argv C st = true)
    (hb : body cfg argv C st = Outcome.done st1) :
    TableInv { st1 with argn := st1.argn + 2 } := by
  obtain ⟨s, z, e, -, -, rfl⟩ := body_done hb
  obtain ⟨hm, hl, hp⟩ := hP
  have hlt : st.partn < 4 := by
    simp only [guard, Bool.and_eq_true, decide_eq_true_eq] at hg
    exact hg.1.2
  refine ⟨?_, ?_, ?_⟩
  · show setPartition st.mbr st.partn s z = _
    rw [hm, ← hl]
    exact setPartition_tableOf st.log s z (by omega)
  · show (st.log ++ [(s, z)]).length = st.partn + 1
    simp [hl]
  · show st.partn + 1 ≤ 4
    omega

theorem chain_snoc {C : Nat} : ∀ (log : List (Nat × Nat)) (cur nxt s z : Nat),
    Chain C cur log nxt → nxt ≤ s → (s + z) % ULONG_MOD ≤ C →
    Chain C cur (log ++ [(s, z)]) ((s + z) % ULONG_MOD) := by
  intro log
  induction log with
  | nil =>
    intro cur nxt s z h h1 h2
    simp only [Chain] at h
    subst h
    exact ⟨h1, h2, rfl⟩
  | cons r rest ih =>
    intro cur nxt s z h h1 h2
    obtain ⟨ha, hb, hc⟩ := h
    exact ⟨ha, hb, ih _ _ _ _ hc h1 h2⟩

theorem chain_step {cfg : Bool} {argv : List String} {C : Nat} {st st1 : LoopState}
    (hP : Chain C 1 st.log st.next)
    (hb : body cfg argv C st = Outcome.done st1) :
    Chain C 1 ({ st1 with argn := st1.argn + 2 } : LoopState).log
      ({ st1 with argn := st1.argn + 2 } : LoopState).next := by
  obtain ⟨s, z, e, h1, h2, rfl⟩ := body_done hb
  exact chain_snoc _ _ _ _ _ hP h1 h2

/-- What holds when the allocator completes. -/
theorem alloc_done {cfg : Bool} {argv : List String} {C e : Nat} {st : LoopState}
    (h : alloc cfg argv C e = Outcome.done st) :
    TableInv st ∧ Chain C 1 st.log st.next ∧ guard argv C st = false := by
  have := loop_done_induct (fun st => TableInv st ∧ Chain C 1 st.log st.next)
    (fun st st1 hP hg hb => ⟨tableInv_step hP.1 hg hb, chain_step hP.2 hb⟩)
    4 (loopInit e) st ⟨tableInv_init e, rfl⟩ h
  exact ⟨this.1.1, this.1.2, this.2⟩

/-! ## The bytes of the image -/

set_option maxRecDepth 100000

theorem slot_slice {st : LoopState} (hP : TableInv st) {i : Nat} (hi : i < st.partn) :
    ∃ r, st.log[i]? = some r ∧ st.mbr.partitions[i]? = some (entryOf r) ∧
      slice st.mbr.bytes (446 + 16 * i) 16 = (entryOf r).bytes := by
  obtain ⟨hm, hl, hp⟩ := hP
  rw [hm]
  rw [← hl] at hi
  generalize st.log = log at hi hl
  rcases log with _ | ⟨a, _ | ⟨b, _ | ⟨c, _ | ⟨d, _ | ⟨x, l⟩⟩⟩⟩⟩
  · simp at hi
  · have : i = 0 := by simp at hi; omega
    subst this; exact ⟨a, rfl, rfl, rfl⟩
  · have : i = 0 ∨ i = 1 := by simp at hi; omega
    rcases this with rfl | rfl
    · exact ⟨a, rfl, rfl, rfl⟩
    · exact ⟨b, rfl, rfl, rfl⟩
  · have : i = 0 ∨ i = 1 ∨ i = 2 := by simp at hi; omega
    rcases this with rfl | rfl | rfl
    · exact ⟨a, rfl, rfl, rfl⟩
    · exact ⟨b, rfl, rfl, rfl⟩
    · exact ⟨c, rfl, rfl, rfl⟩
  · have : i = 0 ∨ i = 1 ∨ i = 2 ∨ i = 3 := by simp at hi; omega
    rcases this with rfl | rfl | rfl | rfl
    · exact ⟨a, rfl, rfl, rfl⟩
    · exact ⟨b, rfl, rfl, rfl⟩
    · exact ⟨c, rfl, rfl, rfl⟩
    · exact ⟨d, rfl, rfl, rfl⟩
  · simp only [List.length_cons] at hl; omega

theorem free_slice {st : LoopState} (hP : TableInv st) {i : Nat} (h1 : st.partn ≤ i)
    (h2 : i < 4) : slice st.mbr.bytes (446 + 16 * i) 16 = List.replicate 16 0 := by
  obtain ⟨hm, hl, hp⟩ := hP
  rw [hm]
  rw [← hl] at h1
  generalize st.log = log at h1 hl
  have hi : i = 0 ∨ i = 1 ∨ i = 2 ∨ i = 3 := by omega
  rcases log with _ | ⟨a, _ | ⟨b, _ | ⟨c, _ | ⟨d, _ | ⟨x, l⟩⟩⟩⟩⟩
  · rcases hi with rfl | rfl | rfl | rfl <;> rfl
  · rcases hi with rfl | rfl | rfl | rfl <;> first | rfl | (simp at h1)
  · rcases hi with rfl | rfl | rfl | rfl <;> first | rfl | (simp at h1)
  · rcases hi with rfl | rfl | rfl | rfl <;> first | rfl | (simp at h1)
  · simp only [List.length_cons] at h1; omega
  · simp only [List.length_cons] at hl; omega

theorem table_bytes_length (log : List (Nat × Nat)) (h : log.length ≤ 4) :
    ((tableOf log).map partition_t.bytes).flatten.length = 64 := by
  rcases log with _ | ⟨a, _ | ⟨b, _ | ⟨c, _ | ⟨d, _ | ⟨x, l⟩⟩⟩⟩⟩
  · rfl
  · rfl
  · rfl
  · rfl
  · rfl
  · simp only [List.length_cons] at h; omega

theorem fixed_bytes {st : LoopState} (hP : TableInv st) :
    st.mbr.bytes.length = 512 ∧ (∀ j, j < 446 → st.mbr.bytes[j]? = some 0) ∧
      st.mbr.bytes[510]? = some 0x55 ∧ st.mbr.bytes[511]? = some 0xAA := by
  obtain ⟨hm, hl, hp⟩ := hP
  have hlen := table_bytes_length st.log (by omega)
  rw [hm]
  simp only [mbr_t.bytes]
  refine ⟨?_, ?_, ?_, ?_⟩
  · simp [hlen, le16]
  · intro j hj
    rw [List.append_assoc,
      List.getElem?_append_left (by rw [List.length_replicate]; exact hj),
      List.getElem?_replicate, if_pos hj]
  · rw [List.getElem?_append_right (by simp [hlen])]
    simp [hlen, le16, MBR_BOOT_SIGNATURE]
  · rw [List.getElem?_append_right (by simp [hlen])]
    simp [hlen, le16, MBR_BOOT_SIGNATURE]

theorem slice_getElem? {img l : List Nat} {off n k : Nat} (h : slice img off n = l)
    (hk : k < n) : img[off + k]? = l[k]? := by
  rw [← h, slice, List.getElem?_take_of_lt hk, List.getElem?_drop]

/-- The only path of `main` that calls `write` is the one on which the loop
completed, and the buffer written is the image left by the loop. -/
theorem main_written {sys : Sys} {argv : List String} {img : List Nat}
    (h : (main sys argv).written = some img) :
    ∃ st, alloc sys.noconvEinval argv (sys.st_size / 512 % ULONG_MOD) sys.errno_entry
        = Outcome.done st ∧ img = st.mbr.bytes := by
  unfold main at h
  simp only at h
  split at h
  · cases h
  · split at h
    · cases h
    · split at h
      · cases h
      · split at h
        · rename_i st hst
          refine ⟨st, hst, ?_⟩
          split at h
          · simp only [err_exit] at h
            injection h with h; exact h.symm
          · injection h with h; exact h.symm
        · cases h
        · cases h
        · cases h

/-! ## The order of the accepted pairs -/

theorem chain_head {C cur nxt : Nat} {r : Nat × Nat} {rest : List (Nat × Nat)}
    (h : Chain C cur (r :: rest) nxt) : cur ≤ r.1 := h.1

theorem chain_adj {C : Nat} : ∀ (log : List (Nat × Nat)) (cur nxt j : Nat) (r r' : Nat × Nat),
    Chain C cur log nxt → log[j]? = some r → log[j + 1]? = some r' →
    (r.1 + r.2) % ULONG_MOD ≤ r'.1 := by
  intro log
  induction log with
  | nil => intro cur nxt j r r' _ h; simp at h
  | cons a rest ih =>
    intro cur nxt j r r' hc h1 h2
    obtain ⟨-, -, hrest⟩ := hc
    cases j with
    | zero =>
      simp only [List.getElem?_cons_zero, Option.some.injEq] at h1
      subst h1
      simp only [zero_add, List.getElem?_cons_succ] at h2
      cases rest with
      | nil => simp at h2
      | cons b rest' =>
        simp only [List.getElem?_cons_zero, Option.some.injEq] at h2
        subst h2
        exact chain_head hrest
    | succ j =>
      simp only [List.getElem?_cons_succ] at h1 h2
      exact ih _ _ j r r' hrest h1 h2

theorem entryOf_exact {r : Nat × Nat} (h : r.1 < UINT32_MOD ∧ r.2 < UINT32_MOD) :
    (entryOf r).first_sector_lba = r.1 ∧ (entryOf r).sectors_num_lba = r.2 :=
  ⟨Nat.mod_eq_of_lt h.1, Nat.mod_eq_of_lt h.2⟩

theorem entryOf_bytes (r : Nat × Nat) :
    (entryOf r).bytes = [0, 0, 0, 0, 0x83, 0, 0, 0] ++ le32 (entryOf r).first_sector_lba
      ++ le32 (entryOf r).sectors_num_lba := rfl

theorem entryOf_lt (r : Nat × Nat) :
    (entryOf r).first_sector_lba < UINT32_MOD ∧ (entryOf r).sectors_num_lba < UINT32_MOD :=
  ⟨Nat.mod_lt _ (by decide), Nat.mod_lt _ (by decide)⟩

theorem read32_slice {img B : List Nat} {off k : Nat} (h : slice img off 16 = B)
    (hk : k + 3 < 16) : read32 img (off + k) = read32 B k := by
  unfold read32
  simp only [List.getD_eq_getElem?_getD]
  rw [show off + k + 1 = off + (k + 1) by omega, show off + k + 2 = off + (k + 2) by omega,
    show off + k + 3 = off + (k + 3) by omega,
    slice_getElem? h (by omega), slice_getElem? h (by omega), slice_getElem? h (by omega),
    slice_getElem? h (by omega)]

theorem read32_entry (r : Nat × Nat) :
    read32 (entryOf r).bytes 8 = r.1 % UINT32_MOD ∧
      read32 (entryOf r).bytes 12 = r.2 % UINT32_MOD := by
  have h1 : r.1 % UINT32_MOD < 4294967296 := Nat.mod_lt _ (by decide)
  have h2 : r.2 % UINT32_MOD < 4294967296 := Nat.mod_lt _ (by decide)
  constructor
  · show r.1 % UINT32_MOD % 256 + 256 * (r.1 % UINT32_MOD / 256 % 256)
      + 65536 * (r.1 % UINT32_MOD / 65536 % 256)
      + 16777216 * (r.1 % UINT32_MOD / 16777216 % 256) = r.1 % UINT32_MOD
    omega
  · show r.2 % UINT32_MOD % 256 + 256 * (r.2 % UINT32_MOD / 256 % 256)
      + 65536 * (r.2 % UINT32_MOD / 65536 % 256)
      + 16777216 * (r.2 % UINT32_MOD / 16777216 % 256) = r.2 % UINT32_MOD
    omega

/-- The records of the image are the accepted pairs, each value reduced to 32
bits. -/
theorem records_eq {st : LoopState} (hP : TableInv st) :
    records st = st.log.map fun r => (r.1 % UINT32_MOD, r.2 % UINT32_MOD) := by
  obtain ⟨hm, hl, hp⟩ := hP
  unfold records
  rw [hm, ← hl]
  generalize st.log = log at hl
  rcases log with _ | ⟨a, _ | ⟨b, _ | ⟨c, _ | ⟨d, _ | ⟨x, l⟩⟩⟩⟩⟩
  · rfl
  · rfl
  · rfl
  · rfl
  · rfl
  · simp only [List.length_cons] at hl; omega

theorem loop_step {cfg : Bool} {argv : List String} {C fuel : Nat} {st st1 : LoopState}
    (hg : guard argv C st = true) (hb : body cfg argv C st = Outcome.done st1) :
    loop cfg argv C (fuel + 1) st = loop cfg argv C fuel { st1 with argn := st1.argn + 2 } := by
  rw [loop, if_pos hg, hb]

theorem loop_abort {cfg : Bool} {argv : List String} {C fuel : Nat} {st st1 : LoopState}
    (hg : guard argv C st = true) (hb : body cfg argv C st = Outcome.error st1) :
    loop cfg argv C (fuel + 1) st = Outcome.error st1 := by
  rw [loop, if_pos hg, hb]

theorem loop_stop {cfg : Bool} {argv : List String} {C fuel : Nat} {st : LoopState}
    (hg : guard argv C st = false) : loop cfg argv C fuel st = Outcome.done st := by
  cases fuel with
  | zero => rw [loop, if_neg (by rw [hg]; exact Bool.false_ne_true)]
  | succ n => rw [loop, if_neg (by rw [hg]; exact Bool.false_ne_true)]

/-- The value returned by `strtol` is a `long`. -/
theorem strtol_range (cfg : Bool) (t : String) :
    LONG_MIN ≤ (strtol cfg t).1 ∧ (strtol cfg t).1 ≤ LONG_MAX := by
  unfold strtol
  simp only
  split
  · simp [LONG_MIN, LONG_MAX]
  · split
    · split
      · simp [LONG_MIN, LONG_MAX]
      · rename_i h
        simp only [LONG_MIN, LONG_MAX] at h ⊢
        constructor <;> omega
    · split
      · simp [LONG_MIN, LONG_MAX]
      · rename_i h
        simp only [LONG_MIN, LONG_MAX] at h ⊢
        constructor <;> omega

theorem toULong_of_nonneg {v : Int} (h0 : 0 ≤ v) (h1 : v ≤ LONG_MAX) :
    toULong v = v.toNat ∧ v.toNat < 2 ^ 63 := by
  simp only [LONG_MAX] at h1
  unfold toULong ULONG_MOD
  constructor
  · rw [Int.emod_eq_of_lt h0 (by norm_num; omega)]
  · omega

theorem commit_accept {C : Nat} {st : LoopState}
    (h : ¬ (st.start < st.next ∨ (st.start + st.size) % ULONG_MOD > C)) :
    commit C st = Outcome.done
      { st with
        mbr := setPartition st.mbr st.partn st.start st.size,
        next := (st.start + st.size) % ULONG_MOD,
        partn := st.partn + 1,
        log := st.log ++ [(st.start, st.size)] } := by
  unfold commit
  rw [if_neg h]

theorem commit_reject {C : Nat} {st : LoopState}
    (h : st.start < st.next ∨ (st.start + st.size) % ULONG_MOD > C) :
    commit C st = Outcome.error { st with errno := EINVAL } := by
  unfold commit
  rw [if_pos h]

/-- A pass whose two tokens are literals that `strtol` converts without error,
to non-negative values: the checks of line 140 decide. -/
theorem body_literals (cfg : Bool) (argv : List String) (C : Nat) (st : LoopState)
    (t1 t2 : String) {s n : Int}
    (ha1 : argv[st.argn]? = some t1) (ha2 : argv[st.argn + 1]? = some t2)
    (h1 : t1 ≠ "auto") (h2 : t2 ≠ "auto")
    (hs : strtol cfg t1 = (s, none)) (hn : strtol cfg t2 = (n, none))
    (hs0 : 0 ≤ s) (hn0 : 0 ≤ n) :
    body cfg argv C st =
      commit C { st with errno := 0, start := s.toNat, size := n.toNat } := by
  have rs := strtol_range cfg t1
  have rn := strtol_range cfg t2
  rw [hs] at rs
  rw [hn] at rn
  have es := (toULong_of_nonneg hs0 rs.2).1
  have en := (toULong_of_nonneg hn0 rn.2).1
  simp only at es en
  simp [body, ha1, ha2, resolveStart, resolveSize, h1, h2, hs, hn, es, en]

/-! ## The iteration budget -/

theorem guard_partn {argv : List String} {C : Nat} {st : LoopState}
    (h : guard argv C st = true) : st.partn < 4 := by
  simp only [guard, Bool.and_eq_true, decide_eq_true_eq] at h
  exact h.1.2

theorem resolveStart_ne_timeout (cfg : Bool) (tok : String) (st : LoopState) :
    resolveStart cfg tok st ≠ Outcome.timeout := by
  unfold resolveStart
  split
  · exact fun h => Outcome.noConfusion h
  · simp only; split <;> exact fun h => Outcome.noConfusion h

theorem resolveSize_ne_timeout (cfg : Bool) (C : Nat) (tok : String) (st : LoopState) :
    resolveSize cfg C tok st ≠ Outcome.timeout := by
  unfold resolveSize
  split
  · exact fun h => Outcome.noConfusion h
  · simp only; split <;> exact fun h => Outcome.noConfusion h

theorem body_ne_timeout (cfg : Bool) (argv : List String) (C : Nat) (st : LoopState) :
    body cfg argv C st ≠ Outcome.timeout := by
  unfold body
  split
  · exact fun h => Outcome.noConfusion h
  · split
    · split
      · exact fun h => Outcome.noConfusion h
      · split
        · unfold commit; split <;> exact fun h => Outcome.noConfusion h
        · exact resolveSize_ne_timeout _ _ _ _
    · exact resolveStart_ne_timeout _ _ _

/-- Every pass increments `partn` and the loop condition requires `partn < 4`:
a budget of `4 - partn` passes is never used up. -/
theorem loop_ne_timeout {cfg : Bool} {argv : List String} {C : Nat} :
    ∀ (fuel : Nat) (st : LoopState), 4 ≤ st.partn + fuel →
      loop cfg argv C fuel st ≠ Outcome.timeout := by
  intro fuel
  induction fuel with
  | zero =>
    intro st h
    cases hg : guard argv C st with
    | false => rw [loop_stop hg]; exact fun h => Outcome.noConfusion h
    | true => have := guard_partn hg; omega
  | succ n ih =>
    intro st h
    cases hg : guard argv C st with
    | false => rw [loop_stop hg]; exact fun h => Outcome.noConfusion h
    | true =>
      rw [loop, if_pos hg]
      split
      · rename_i st1 hb
        obtain ⟨s, z, e, -, -, rfl⟩ := body_done hb
        exact ih _ (by show 4 ≤ st.partn + 1 + n; omega)
      · exact body_ne_timeout _ _ _ _

/-- A larger budget changes nothing. -/
theorem loop_fuel {cfg : Bool} {argv : List String} {C : Nat} (k : Nat) :
    ∀ (fuel : Nat) (st : LoopState), 4 ≤ st.partn + fuel →
      loop cfg argv C (fuel + k) st = loop cfg argv C fuel st := by
  intro fuel
  induction fuel with
  | zero =>
    intro st h
    cases hg : guard argv C st with
    | false => rw [loop_stop hg, loop_stop hg]
    | true => have := guard_partn hg; omega
  | succ n ih =>
    intro st h
    cases hg : guard argv C st with
    | false => rw [loop_stop hg, loop_stop hg]
    | true =>
      rw [show n + 1 + k = (n + k) + 1 by omega, loop, loop, if_pos hg, if_pos hg]
      split
      · rename_i st1 hb
        obtain ⟨s, z, e, -, -, rfl⟩ := body_done hb
        exact ih _ (by show 4 ≤ st.partn + 1 + n; omega)
      · rfl

/-- The allocator always ends, and the budget of four passes in `alloc` is no
restriction: every larger budget gives the same outcome. -/
theorem alloc_total (cfg : Bool) (argv : List String) (C e : Nat) :
    alloc cfg argv C e ≠ Outcome.timeout ∧
      ∀ k, loop cfg argv C (4 + k) (loopInit e) = alloc cfg argv C e :=
  ⟨loop_ne_timeout 4 (loopInit e) (Nat.le_add_left 4 0),
    fun k => loop_fuel k 4 (loopInit e) (Nat.le_add_left 4 0)⟩

/-! ## The cursor at the head of each pass -/

theorem headState_inv {cfg : Bool} {argv : List String} {C e : Nat} :
    ∀ (k : Nat) (st : LoopState), headState cfg argv C e k = some st →
      TableInv st ∧ Chain C 1 st.log st.next ∧ st.partn = k := by
  intro k
  induction k with
  | zero =>
    intro st h
    simp only [headState, Option.some.injEq] at h
    subst h
    exact ⟨tableInv_init e, rfl, rfl⟩
  | succ n ih =>
    intro st h
    rw [headState] at h
    split at h
    · rename_i st0 h0
      obtain ⟨hT, hC, hp⟩ := ih st0 h0
      split at h
      · rename_i hg
        split at h
        · rename_i st1 hb
          injection h with h
          subst h
          refine ⟨tableInv_step hT hg hb, chain_step hC hb, ?_⟩
          obtain ⟨s, z, e1, -, -, rfl⟩ := body_done hb
          show st0.partn + 1 = n + 1
          rw [hp]
        · cases h
      · cases h
    · cases h

theorem chain_last {C : Nat} : ∀ (log : List (Nat × Nat)) (cur nxt : Nat) (r : Nat × Nat),
    Chain C cur log nxt → log.getLast? = some r → nxt = (r.1 + r.2) % ULONG_MOD := by
  intro log
  induction log with
  | nil => intro cur nxt r _ h; simp at h
  | cons a rest ih =>
    intro cur nxt r hc h
    obtain ⟨-, -, hrest⟩ := hc
    cases rest with
    | nil =>
      simp only [List.getLast?_singleton, Option.some.injEq] at h
      subst h
      exact hrest
    | cons b rest' =>
      rw [List.getLast?_cons_cons] at h
      exact ih _ _ r hrest h

theorem strtol_auto (cfg : Bool) :
    strtol cfg "auto" = (0, if cfg then some EINVAL else none) := by
  cases cfg <;> rfl

/-! ## Passes of a run -/

theorem headState_succ {cfg : Bool} {argv : List String} {C e k : Nat} {st st1 : LoopState}
    (hk : headState cfg argv C e k = some st) (hg : guard argv C st = true)
    (hb : body cfg argv C st = Outcome.done st1) :
    headState cfg argv C e (k + 1) = some { st1 with argn := st1.argn + 2 } := by
  rw [headState, hk]
  simp only
  rw [if_pos hg, hb]

/-- What `headState (k + 1) = some st` means: pass `k` was entered and completed. -/
theorem headState_pred {cfg : Bool} {argv : List String} {C e k : Nat} {st : LoopState}
    (h : headState cfg argv C e (k + 1) = some st) :
    ∃ st0 st1, headState cfg argv C e k = some st0 ∧ guard argv C st0 = true ∧
      body cfg argv C st0 = Outcome.done st1 ∧ st = { st1 with argn := st1.argn + 2 } := by
  rw [headState] at h
  split at h
  · rename_i st0 h0
    split at h
    · rename_i hg
      split at h
      · rename_i st1 hb
        injection h with h
        exact ⟨st0, st1, h0, hg, hb, h.symm⟩
      · cases h
    · cases h
  · cases h

/-- The loop of `main` run from its start goes through the head states. -/
theorem loop_headState {cfg : Bool} {argv : List String} {C e : Nat} :
    ∀ (k : Nat) (st : LoopState), headState cfg argv C e k = some st →
      ∀ fuel, loop cfg argv C (fuel + k) (loopInit e) = loop cfg argv C fuel st := by
  intro k
  induction k with
  | zero =>
    intro st h fuel
    simp only [headState, Option.some.injEq] at h
    subst h
    rfl
  | succ n ih =>
    intro st h fuel
    obtain ⟨st0, st1, h0, hg, hb, rfl⟩ := headState_pred h
    rw [show fuel + (n + 1) = (fuel + 1) + n by omega, ih st0 h0 (fuel + 1), loop_step hg hb]

theorem headState_argn {cfg : Bool} {argv : List String} {C e : Nat} :
    ∀ (k : Nat) (st : LoopState), headState cfg argv C e k = some st →
      st.argn = 2 + 2 * k := by
  intro k
  induction k with
  | zero =>
    intro st h
    simp only [headState, Option.some.injEq] at h
    subst h
    rfl
  | succ n ih =>
    intro st h
    obtain ⟨st0, st1, h0, hg, hb, rfl⟩ := headState_pred h
    obtain ⟨s, z, e1, -, -, rfl⟩ := body_done hb
    show st0.argn + 2 = 2 + 2 * (n + 1)
    rw [ih st0 h0]
    omega

/-- A run that reaches a head state where the loop condition is false completes
there. -/
theorem alloc_of_head_stop {cfg : Bool} {argv : List String} {C e k : Nat} {st : LoopState}
    (hk : headState cfg argv C e k = some st) (hg : guard argv C st = false) :
    alloc cfg argv C e = Outcome.done st := by
  obtain ⟨hT, -, hp⟩ := headState_inv k st hk
  have hk4 : k ≤ 4 := hp ▸ hT.2.2
  have := loop_headState k st hk (4 - k)
  rw [show 4 - k + k = 4 by omega] at this
  rw [alloc, this, loop_stop hg]

/-- A run that reaches a pass which takes `goto err_exit` ends there. -/
theorem alloc_of_head_error {cfg : Bool} {argv : List String} {C e k : Nat}
    {st st1 : LoopState} (hk : headState cfg argv C e k = some st)
    (hg : guard argv C st = true) (hb : body cfg argv C st = Outcome.error st1) :
    alloc cfg argv C e = Outcome.error st1 := by
  obtain ⟨-, -, hp⟩ := headState_inv k st hk
  have hk4 : k < 4 := hp ▸ guard_partn hg
  have := loop_headState k st hk (3 - k + 1)
  rw [show 3 - k + 1 + k = 4 by omega] at this
  rw [alloc, this, loop_abort hg hb]

theorem body_start_error {cfg : Bool} {argv : List String} {C : Nat} {st st1 : LoopState}
    {a : String} (ha : argv[st.argn]? = some a)
    (hs : resolveStart cfg a st = Outcome.error st1) :
    body cfg argv C st = Outcome.error st1 := by
  simp only [body, ha, hs]

theorem body_size_error {cfg : Bool} {argv : List String} {C : Nat} {st st1 st2 : LoopState}
    {a b : String} (ha : argv[st.argn]? = some a) (hb : argv[st.argn + 1]? = some b)
    (hs : resolveStart cfg a st = Outcome.done st1)
    (hz : resolveSize cfg C b st1 = Outcome.error st2) :
    body cfg argv C st = Outcome.error st2 := by
  simp only [body, ha, hb, hs, hz]

theorem body_commit {cfg : Bool} {argv : List String} {C : Nat} {st st1 st2 : LoopState}
    {a b : String} (ha : argv[st.argn]? = some a) (hb : argv[st.argn + 1]? = some b)
    (hs : resolveStart cfg a st = Outcome.done st1)
    (hz : resolveSize cfg C b st1 = Outcome.done st2) :
    body cfg argv C st = commit C st2 := by
  simp only [body, ha, hb, hs, hz]

/-! ## Runs on argument vectors that agree on what the loop reads -/

theorem body_congr {cfg : Bool} {A B : List String} {C : Nat} {st : LoopState}
    (h1 : A[st.argn]? = B[st.argn]?) (h2 : A[st.argn + 1]? = B[st.argn + 1]?) :
    body cfg A C st = body cfg B C st := by
  unfold body
  rw [h1, h2]

theorem guard_congr {A B : List String} {C : Nat} {st : LoopState}
    (h : st.argn < A.length ↔ st.argn < B.length) : guard A C st = guard B C st := by
  unfold guard
  rw [decide_eq_decide.mpr h]

/-- The loop reads `argv[2]` to `argv[9]` at most: two vectors of at least ten
strings that agree there give the same run. -/
theorem loop_congr {cfg : Bool} {A B : List String} {C : Nat}
    (hA : 10 ≤ A.length) (hB : 10 ≤ B.length) (hAB : ∀ i, i < 10 → A[i]? = B[i]?) :
    ∀ (fuel : Nat) (st : LoopState), st.argn = 2 + 2 * st.partn →
      loop cfg A C fuel st = loop cfg B C fuel st := by
  have hgd : ∀ st : LoopState, st.argn = 2 + 2 * st.partn → guard A C st = guard B C st := by
    intro st hst
    by_cases hp : st.partn < 4
    · exact guard_congr ⟨fun _ => by omega, fun _ => by omega⟩
    · simp [guard, hp]
  have hbd : ∀ st : LoopState, st.argn = 2 + 2 * st.partn → guard A C st = true →
      body cfg A C st = body cfg B C st := by
    intro st hst hg
    have hp := guard_partn hg
    exact body_congr (hAB _ (by omega)) (hAB _ (by omega))
  intro fuel
  induction fuel with
  | zero =>
    intro st hst
    rw [loop, loop, hgd st hst]
  | succ n ih =>
    intro st hst
    cases hg : guard A C st with
    | false => rw [loop_stop hg, loop_stop ((hgd st hst) ▸ hg)]
    | true =>
      have hg' : guard B C st = true := (hgd st hst) ▸ hg
      rw [loop, loop, if_pos hg, if_pos hg', ← hbd st hst hg]
      split
      · rename_i st1 hb
        obtain ⟨s, z, e1, -, -, rfl⟩ := body_done hb
        exact ih _ (by show st.argn + 2 = 2 + 2 * (st.partn + 1); omega)
      · rfl

/-- Head states only depend on the tokens before them. -/
theorem headState_congr {cfg : Bool} {A B : List String} {C e : Nat} :
    ∀ (k : Nat) (st : LoopState), headState cfg A C e k = some st →
      2 + 2 * k ≤ A.length → 2 + 2 * k ≤ B.length →
      (∀ i, i < 2 + 2 * k → A[i]? = B[i]?) → headState cfg B C e k = some st := by
  intro k
  induction k with
  | zero =>
    intro st h _ _ _
    simpa only [headState] using h
  | succ n ih =>
    intro st h hA hB hAB
    obtain ⟨st0, st1, h0, hg, hb, rfl⟩ := headState_pred h
    have h0B := ih st0 h0 (by omega) (by omega) (fun i hi => hAB i (by omega))
    have harg := headState_argn n st0 h0
    have hgB : guard B C st0 = true := by
      rw [← guard_congr (A := A) ⟨fun _ => by omega, fun _ => by omega⟩]
      exact hg
    have hbB : body cfg B C st0 = Outcome.done st1 := by
      rw [← body_congr (A := A) (hAB _ (by omega)) (hAB _ (by omega))]
      exact hb
    exact headState_succ h0B hgB hbB

/-- The result of `main` is determined by the argument check and the run of the
loop. -/
theorem main_congr (sys : Sys) {A B : List String}
    (hA : ¬ (A.length < 4 ∨ A.length % 2 ≠ 0)) (hB : ¬ (B.length < 4 ∨ B.length % 2 ≠ 0))
    (h : alloc sys.noconvEinval A (sys.st_size / 512 % ULONG_MOD) sys.errno_entry
      = alloc sys.noconvEinval B (sys.st_size / 512 % ULONG_MOD) sys.errno_entry) :
    main sys A = main sys B := by
  unfold main
  simp only
  rw [if_neg hA, if_neg hB, h]

/-! ## Index safety -/

theorem resolveStart_ne_fault (cfg : Bool) (tok : String) (st : LoopState) :
    resolveStart cfg tok st ≠ Outcome.fault := by
  unfold resolveStart
  split
  · exact fun h => Outcome.noConfusion h
  · simp only; split <;> exact fun h => Outcome.noConfusion h

theorem resolveSize_ne_fault (cfg : Bool) (C : Nat) (tok : String) (st : LoopState) :
    resolveSize cfg C tok st ≠ Outcome.fault := by
  unfold resolveSize
  split
  · exact fun h => Outcome.noConfusion h
  · simp only; split <;> exact fun h => Outcome.noConfusion h

/-- A pass whose two reads of `argv` are in range does not fault. -/
theorem body_ne_fault {cfg : Bool} {argv : List String} {C : Nat} {st : LoopState}
    (h : st.argn + 1 < argv.length) : body cfg argv C st ≠ Outcome.fault := by
  unfold body
  split
  · rename_i hn
    rw [List.getElem?_eq_none_iff] at hn
    omega
  · split
    · split
      · rename_i hn
        rw [List.getElem?_eq_none_iff] at hn
        omega
      · split
        · unfold commit; split <;> exact fun h => Outcome.noConfusion h
        · exact resolveSize_ne_fault _ _ _ _
    · exact resolveStart_ne_fault _ _ _

theorem guard_argn {argv : List String} {C : Nat} {st : LoopState}
    (h : guard argv C st = true) : st.argn < argv.length := by
  simp only [guard, Bool.and_eq_true, decide_eq_true_eq] at h
  exact h.1.1

/-- With an even `argc` the loop never reads past the end of `argv`. -/
theorem loop_ne_fault {cfg : Bool} {argv : List String} {C : Nat}
    (heven : argv.length % 2 = 0) :
    ∀ (fuel : Nat) (st : LoopState), st.argn % 2 = 0 →
      loop cfg argv C fuel st ≠ Outcome.fault := by
  intro fuel
  induction fuel with
  | zero =>
    intro st _
    rw [loop]
    split <;> exact fun h => Outcome.noConfusion h
  | succ n ih =>
    intro st hst
    cases hg : guard argv C st with
    | false => rw [loop_stop hg]; exact fun h => Outcome.noConfusion h
    | true =>
      have hlt := guard_argn hg
      rw [loop, if_pos hg]
      split
      · rename_i st1 hb
        obtain ⟨s, z, e1, -, -, rfl⟩ := body_done hb
        exact ih _ (by show (st.argn + 2) % 2 = 0; omega)
      · exact body_ne_fault (by omega)

/-- The variables with which the loop completes are those of a head state at
which the loop condition is false. -/
theorem loop_done_head {cfg : Bool} {argv : List String} {C e : Nat} :
    ∀ (fuel k : Nat) (st0 st : LoopState), headState cfg argv C e k = some st0 →
      loop cfg argv C fuel st0 = Outcome.done st →
      ∃ k1, headState cfg argv C e k1 = some st ∧ guard argv C st = false := by
  intro fuel
  induction fuel with
  | zero =>
    intro k st0 st hk h
    rw [loop] at h
    split at h
    · cases h
    · rename_i hg
      injection h with h
      subst h
      exact ⟨k, hk, by simpa using hg⟩
  | succ n ih =>
    intro k st0 st hk h
    cases hg : guard argv C st0 with
    | false =>
      rw [loop_stop hg] at h
      injection h with h
      subst h
      exact ⟨k, hk, hg⟩
    | true =>
      rw [loop, if_pos hg] at h
      split at h
      · rename_i st1 hb
        exact ih (k + 1) _ st (headState_succ hk hg hb) h
      · rename_i hne
        exact (hne _ h).elim

theorem alloc_done_head {cfg : Bool} {argv : List String} {C e : Nat} {st : LoopState}
    (h : alloc cfg argv C e = Outcome.done st) :
    ∃ k, headState cfg argv C e k = some st ∧ guard argv C st = false :=
  loop_done_head 4 0 (loopInit e) st rfl h

/-- At every head state `argn <= argc`, when `argc` is even and at least 2. -/
theorem headState_argn_le {cfg : Bool} {argv : List String} {C e : Nat}
    (hlen : 2 ≤ argv.length) (heven : argv.length % 2 = 0) :
    ∀ (k : Nat) (st : LoopState), headState cfg argv C e k = some st →
      2 + 2 * k ≤ argv.length := by
  intro k st hk
  cases k with
  | zero => omega
  | succ n =>
    obtain ⟨st0, st1, h0, hg, -, -⟩ := headState_pred hk
    have h1 := headState_argn n st0 h0
    have h2 := guard_argn hg
    omega

theorem tableOf_length {log : List (Nat × Nat)} (h : log.length ≤ 4) :
    (tableOf log).length = 4 := by
  unfold tableOf
  rw [List.length_append, List.length_map, List.length_replicate]
  omega

/-! ## Where the accepted values come from -/

theorem resolveStart_value {cfg : Bool} {a : String} {st st1 : LoopState}
    (h : resolveStart cfg a st = Outcome.done st1) :
    (a = "auto" ∧ 0 < st.next ∧ st1.start = st.next) ∨
      (¬ (a = "auto" ∧ 0 < st.next) ∧ st1.start = toULong (strtol cfg a).1) := by
  unfold resolveStart at h
  split at h
  · rename_i hc
    injection h with h
    subst h
    exact Or.inl ⟨hc.1, hc.2, rfl⟩
  · rename_i hc
    simp only at h
    split at h
    · cases h
    · injection h with h
      subst h
      exact Or.inr ⟨hc, rfl⟩

theorem resolveSize_value {cfg : Bool} {C : Nat} {b : String} {st st1 : LoopState}
    (h : resolveSize cfg C b st = Outcome.done st1) :
    st1.start = st.start ∧
    ((b = "auto" ∧ st1.size = (C + ULONG_MOD - st.start) % ULONG_MOD) ∨
      (b ≠ "auto" ∧ st1.size = toULong (strtol cfg b).1)) := by
  unfold resolveSize at h
  split at h
  · rename_i hc
    injection h with h
    subst h
    exact ⟨rfl, Or.inl ⟨hc, rfl⟩⟩
  · rename_i hc
    simp only at h
    split at h
    · cases h
    · injection h with h
      subst h
      exact ⟨rfl, Or.inr ⟨hc, rfl⟩⟩

/-- A pass that completes read two tokens `a`, `b` of `argv` and accepted the
values they resolve to. -/
theorem body_done_value {cfg : Bool} {argv : List String} {C : Nat} {st st1 : LoopState}
    (h : body cfg argv C st = Outcome.done st1) :
    ∃ a b, argv[st.argn]? = some a ∧ argv[st.argn + 1]? = some b ∧
      ((a = "auto" ∧ 0 < st.next ∧ st1.start = st.next) ∨
        (¬ (a = "auto" ∧ 0 < st.next) ∧ st1.start = toULong (strtol cfg a).1)) ∧
      ((b = "auto" ∧ st1.size = (C + ULONG_MOD - st1.start) % ULONG_MOD) ∨
        (b ≠ "auto" ∧ st1.size = toULong (strtol cfg b).1)) := by
  unfold body at h
  split at h
  · cases h
  · rename_i a ha
    split at h
    · rename_i sa hs
      split at h
      · cases h
      · rename_i b hb
        split at h
        · rename_i sb hz
          obtain ⟨h1, h2, rfl⟩ := commit_done h
          have hv := resolveStart_value hs
          obtain ⟨hst, hz'⟩ := resolveSize_value hz
          refine ⟨a, b, ha, hb, ?_, ?_⟩
          · show _ ∨ (_ ∧ sb.start = _)
            rw [hst]
            exact hv
          · show (_ ∧ sb.size = (C + ULONG_MOD - sb.start) % ULONG_MOD) ∨ (_ ∧ sb.size = _)
            rw [hst]
            exact hz'
        · rename_i hne
          exact (hne _ h).elim
    · rename_i hne
      exact (hne _ h).elim

theorem mem_drop_two {argv : List String} {i : Nat} {t : String} (hi : 2 ≤ i)
    (h : argv[i]? = some t) : t ∈ argv.drop 2 := by
  apply List.getElem?_mem (n := i - 2)
  rw [List.getElem?_drop, show 2 + (i - 2) = i by omega]
  exact h

theorem toULong_of_range {v : Int} {C : Nat} (h0 : 0 ≤ v) (h1 : v ≤ (C : Int))
    (hC : C < UINT32_MOD) : toULong v ≤ C := by
  have hv : v ≤ LONG_MAX := by
    simp only [LONG_MAX, UINT32_MOD] at hC ⊢
    omega
  rw [(toULong_of_nonneg h0 hv).1]
  omega

/-- One pass on well-formed tokens: with `1 <= next < blkdev_size < 2^32` and
every literal in `[0, blkdev_size]`, an accepted pair `(s, z)` has
`next <= s` and `s + z <= blkdev_size` as natural numbers, and the cursor
becomes `s + z`. -/
theorem body_done_wellformed {cfg : Bool} {argv : List String} {C : Nat}
    {st st1 : LoopState} (hC : C < UINT32_MOD)
    (htok : ∀ t ∈ argv.drop 2, t ≠ "auto" →
      0 ≤ (strtol cfg t).1 ∧ (strtol cfg t).1 ≤ (C : Int))
    (harg : 2 ≤ st.argn) (hn1 : 1 ≤ st.next) (hnC : st.next < C)
    (h : body cfg argv C st = Outcome.done st1) :
    st.next ≤ st1.start ∧ st1.start + st1.size ≤ C ∧ st1.next = st1.start + st1.size ∧
      st1.log = st.log ++ [(st1.start, st1.size)] ∧ st1.argn = st.argn := by
  obtain ⟨a, b, ha, hb, hs, hz⟩ := body_done_value h
  obtain ⟨s, z, e1, h1, h2, rfl⟩ := body_done h
  simp only at hs hz
  have hsC : s ≤ C := by
    rcases hs with ⟨-, -, hs⟩ | ⟨hna, hs⟩
    · omega
    · have hne : a ≠ "auto" := fun h => hna ⟨h, hn1⟩
      obtain ⟨t0, t1⟩ := htok a (mem_drop_two harg ha) hne
      rw [hs]
      exact toULong_of_range t0 t1 hC
  have hzC : z ≤ C := by
    rcases hz with ⟨-, hz⟩ | ⟨hnb, hz⟩
    · rw [hz]
      simp only [UINT32_MOD, ULONG_MOD] at hC ⊢
      omega
    · obtain ⟨t0, t1⟩ := htok b (mem_drop_two (by omega) hb) hnb
      rw [hz]
      exact toULong_of_range t0 t1 hC
  have hmod : (s + z) % ULONG_MOD = s + z := by
    apply Nat.mod_eq_of_lt
    simp only [UINT32_MOD, ULONG_MOD] at hC ⊢
    omega
  rw [hmod] at h2
  exact ⟨h1, h2, hmod, rfl, rfl⟩

theorem guard_next {argv : List String} {C : Nat} {st : LoopState}
    (h : guard argv C st = true) : st.next < C := by
  simp only [guard, Bool.and_eq_true, decide_eq_true_eq] at h
  exact h.2

/-! ## The cursor when no accepted sum wraps -/

/-- Along accepted pairs whose sums `s + z` stay below 2^64, the cursor does not
decrease, every start is at or after the cursor it met, and every end is within
the device. -/
theorem chain_sound {C : Nat} : ∀ (log : List (Nat × Nat)) (cur nxt : Nat),
    Chain C cur log nxt → (∀ r ∈ log, r.1 + r.2 < ULONG_MOD) →
    cur ≤ nxt ∧ ∀ r ∈ log, cur ≤ r.1 ∧ r.1 + r.2 ≤ C := by
  intro log
  induction log with
  | nil =>
    intro cur nxt h _
    simp only [Chain] at h
    subst h
    exact ⟨Nat.le_refl _, fun r hr => absurd hr (List.not_mem_nil r)⟩
  | cons a rest ih =>
    intro cur nxt h hw
    obtain ⟨h1, h2, h3⟩ := h
    have ha := hw a (List.mem_cons_self a rest)
    rw [Nat.mod_eq_of_lt ha] at h2 h3
    obtain ⟨q1, q2⟩ := ih _ _ h3 (fun r hr => hw r (List.mem_cons_of_mem a hr))
    refine ⟨by omega, ?_⟩
    intro r hr
    rw [List.mem_cons] at hr
    rcases hr with rfl | hr
    · exact ⟨h1, h2⟩
    · obtain ⟨p1, p2⟩ := q2 r hr
      exact ⟨by omega, p2⟩

theorem lt_ulong_of_lt_uint32 {r : Nat × Nat} (h : r.1 < UINT32_MOD ∧ r.2 < UINT32_MOD) :
    r.1 + r.2 < ULONG_MOD := by
  have h1 := h.1
  have h2 := h.2
  simp only [UINT32_MOD, ULONG_MOD] at h1 h2 ⊢
  omega

/-- The cursor of a head state is an `unsigned long`. -/
theorem chain_next_lt {C : Nat} : ∀ (log : List (Nat × Nat)) (cur nxt : Nat),
    Chain C cur log nxt → cur < ULONG_MOD → nxt < ULONG_MOD := by
  intro log
  induction log with
  | nil =>
    intro cur nxt h hc
    simp only [Chain] at h
    subst h
    exact hc
  | cons a rest ih =>
    intro cur nxt h _
    exact ih _ _ h.2.2 (Nat.mod_lt _ (by decide))

theorem toULong_lt (v : Int) : toULong v < ULONG_MOD := by
  unfold toULong
  have h : (0 : Int) < (ULONG_MOD : Int) := by decide
  have h1 := Int.emod_lt_of_pos v h
  have h2 := Int.emod_nonneg v (ne_of_gt h)
  omega

/-! ## A pass that reads both of its tokens -/

theorem resolveStart_total (cfg : Bool) (a : String) (st : LoopState) :
    (∃ st1, resolveStart cfg a st = Outcome.done st1) ∨
      (∃ st1, resolveStart cfg a st = Outcome.error st1) := by
  unfold resolveStart
  split
  · exact Or.inl ⟨_, rfl⟩
  · simp only
    split
    · exact Or.inr ⟨_, rfl⟩
    · exact Or.inl ⟨_, rfl⟩

theorem resolveSize_total (cfg : Bool) (C : Nat) (b : String) (st : LoopState) :
    (∃ st1, resolveSize cfg C b st = Outcome.done st1) ∨
      (∃ st1, resolveSize cfg C b st = Outcome.error st1) := by
  unfold resolveSize
  split
  · exact Or.inl ⟨_, rfl⟩
  · simp only
    split
    · exact Or.inr ⟨_, rfl⟩
    · exact Or.inl ⟨_, rfl⟩

theorem commit_total (C : Nat) (st : LoopState) :
    (∃ st1, commit C st = Outcome.done st1) ∨ (∃ st1, commit C st = Outcome.error st1) := by
  unfold commit
  split
  · exact Or.inr ⟨_, rfl⟩
  · exact Or.inl ⟨_, rfl⟩

/-- A pass whose two tokens are there either accepts its request or takes
`goto err_exit`. -/
theorem body_total (cfg : Bool) {argv : List String} (C : Nat) {st : LoopState}
    {a b : String} (ha : argv[st.argn]? = some a) (hb : argv[st.argn + 1]? = some b) :
    (∃ st1, body cfg argv C st = Outcome.done st1) ∨
      (∃ st1, body cfg argv C st = Outcome.error st1) := by
  rcases resolveStart_total cfg a st with ⟨st1, hs⟩ | ⟨st1, hs⟩
  · rcases resolveSize_total cfg C b st1 with ⟨st2, hz⟩ | ⟨st2, hz⟩
    · rw [body_commit ha hb hs hz]
      exact commit_total C st2
    · exact Or.inr ⟨st2, body_size_error ha hb hs hz⟩
  · exact Or.inr ⟨st1, body_start_error ha hs⟩

theorem toULong_of_neg {v : Int} (h0 : v < 0) (h1 : LONG_MIN ≤ v) :
    2 ^ 63 ≤ toULong v := by
  simp only [LONG_MIN] at h1
  unfold toULong ULONG_MOD
  have h : ((2 ^ 64 : Nat) : Int) = 18446744073709551616 := by norm_num
  rw [h]
  omega

theorem chain_mem {C : Nat} : ∀ (log : List (Nat × Nat)) (cur nxt : Nat) (r : Nat × Nat),
    Chain C cur log nxt → r ∈ log → (r.1 + r.2) % ULONG_MOD ≤ C := by
  intro log
  induction log with
  | nil => intro cur nxt r _ hr; exact absurd hr (List.not_mem_nil r)
  | cons a rest ih =>
    intro cur nxt r h hr
    rw [List.mem_cons] at hr
    rcases hr with rfl | hr
    · exact h.2.1
    · exact ih _ _ r h.2.2 hr

/-- When the loop ends at `err_exit`, `main` does not call `write`. -/
theorem main_written_none {sys : Sys} {argv : List String} {st : LoopState}
    (h : alloc sys.noconvEinval argv (sys.st_size / 512 % ULONG_MOD) sys.errno_entry
      = Outcome.error st) : (main sys argv).written = none := by
  unfold main
  simp only
  split
  · rfl
  · split
    · rfl
    · split
      · rfl
      · rw [h]
        rfl

/-! ## Runs that end at `err_exit`, and requests whose sums do not wrap -/

/-- Whenever the loop ends at `err_exit` (a request made `strtol` set `errno`, or
failed the check of line 140), `main` never calls `write` and returns a non-zero
value, however many requests were accepted before. -/
theorem err_exit_writes_nothing (sys : Sys) (argv : List String) (st : LoopState)
    (hs : sys.errnoSane)
    (h : alloc sys.noconvEinval argv (sys.st_size / 512 % ULONG_MOD) sys.errno_entry
      = Outcome.error st) :
    (main sys argv).written = none ∧ ∃ e, (main sys argv).exit = some e ∧ e ≠ 0 := by
  obtain ⟨ho, hf, hc⟩ := hs
  have hne : st.errno ≠ 0 := loop_error _ _ _ h
  unfold main
  simp only
  split
  · exact ⟨rfl, EINVAL, rfl, by decide⟩
  · split
    · rename_i e he
      exact ⟨rfl, e, rfl, fun h0 => ho (by rw [he, h0])⟩
    · split
      · rename_i e he
        refine ⟨rfl, _, rfl, ?_⟩
        cases hcl : sys.close_fail with
        | none => exact fun h0 => hf (by rw [he]; exact congrArg some h0)
        | some c => exact fun h0 => hc (by rw [hcl]; exact congrArg some h0)
      · rw [h]
        refine ⟨rfl, _, rfl, ?_⟩
        cases hcl : sys.close_fail with
        | none => exact hne
        | some c => exact fun h0 => hc (by rw [hcl]; exact congrArg some h0)

/-- At the head of any pass `k` whose start token is `auto`, the start token
resolves `start` to the cursor `next` (the pass goes on, or, when `next = 0` on a
library whose `strtol` reports `EINVAL`, ends at `err_exit`).  Exactly `k`
requests were accepted before.  For the first request the cursor is 1;
otherwise, when the sum `start + size` of the last accepted request did not wrap
around 2^64, the cursor is that sum. -/
theorem auto_start_is_cursor (cfg : Bool) (argv : List String) (C e k : Nat)
    (st : LoopState) (hk : headState cfg argv C e k = some st) :
    (∃ st1, (resolveStart cfg "auto" st = Outcome.done st1 ∨
        resolveStart cfg "auto" st = Outcome.error st1) ∧ st1.start = st.next) ∧
      st.log.length = k ∧ (k = 0 → st.next = 1) ∧
      ∀ s z, st.log.getLast? = some (s, z) → s + z < ULONG_MOD → st.next = s + z := by
  obtain ⟨hT, hC, hp⟩ := headState_inv k st hk
  refine ⟨?_, hT.2.1.trans hp, ?_, ?_⟩
  · by_cases hn : st.next > 0
    · refine ⟨{ st with start := st.next }, Or.inl ?_, rfl⟩
      unfold resolveStart
      rw [if_pos ⟨rfl, hn⟩]
    · have h0 : st.next = 0 := by omega
      unfold resolveStart
      rw [if_neg (fun h => hn h.2), strtol_auto]
      cases cfg with
      | false => exact ⟨_, Or.inl rfl, by rw [h0]; rfl⟩
      | true => exact ⟨_, Or.inr rfl, by rw [h0]; rfl⟩
  · intro h0
    subst h0
    simp only [headState, Option.some.injEq] at hk
    subst hk
    rfl
  · intro s z hl hw
    rw [chain_last _ _ _ _ hC hl]
    exact Nat.mod_eq_of_lt hw

/-- On a device of fewer than 2^63 sectors, take a pass of a run in which the
start token or the length token is a literal that `strtol` converts to a negative
integer.  Either the run ends at `err_exit`, or the request is accepted with a
sum `start + size` of the resolved values that is 2^64 or more: a request with a
negative literal whose sum does not wrap around is always rejected. -/
theorem negative_literal_needs_wrap (cfg : Bool) (argv : List String) (C e k : Nat)
    (st : LoopState) (a b : String)
    (hk : headState cfg argv C e k = some st) (hg : guard argv C st = true)
    (ha : argv[st.argn]? = some a) (hb : argv[st.argn + 1]? = some b)
    (hneg : (a ≠ "auto" ∧ (strtol cfg a).1 < 0) ∨ (b ≠ "auto" ∧ (strtol cfg b).1 < 0))
    (hC : C < 2 ^ 63) :
    (∃ st3, alloc cfg argv C e = Outcome.error st3) ∨
      (∃ st3, body cfg argv C st = Outcome.done st3 ∧
        ULONG_MOD ≤ st3.start + st3.size) := by
  rcases body_total cfg C ha hb with ⟨st3, hd⟩ | ⟨st3, he⟩
  · refine Or.inr ⟨st3, hd, ?_⟩
    obtain ⟨a', b', ha', hb', hs, hz⟩ := body_done_value hd
    rw [ha] at ha'
    rw [hb] at hb'
    injection ha' with ha'
    injection hb' with hb'
    subst ha' hb'
    obtain ⟨s, z, e1, h1, h2, rfl⟩ := body_done hd
    simp only at hs hz ⊢
    by_contra hlt
    rw [Nat.mod_eq_of_lt (by omega)] at h2
    rcases hneg with ⟨hna, hv⟩ | ⟨hnb, hv⟩
    · rcases hs with ⟨hau, -, -⟩ | ⟨-, hs⟩
      · exact hna hau
      · have := toULong_of_neg hv (strtol_range cfg a).1
        omega
    · rcases hz with ⟨hau, -⟩ | ⟨-, hz⟩
      · exact hnb hau
      · have := toULong_of_neg hv (strtol_range cfg b).1
        omega
  · exact Or.inl ⟨st3, alloc_of_head_error hk hg he⟩

/-- Along accepted pairs, a pair that comes after pairs whose sums `s + z` all
stay below 2^64 starts at or after the cursor the first of them met. -/
theorem chain_prefix_sound {C : Nat} :
    ∀ (log : List (Nat × Nat)) (cur nxt i : Nat) (r : Nat × Nat),
    Chain C cur log nxt → log[i]? = some r →
    (∀ j q, j < i → log[j]? = some q → q.1 + q.2 < ULONG_MOD) → cur ≤ r.1 := by
  intro log
  induction log with
  | nil => intro cur nxt i r _ h; simp at h
  | cons a rest ih =>
    intro cur nxt i r hc hi hw
    obtain ⟨h1, -, h3⟩ := hc
    cases i with
    | zero =>
      simp only [List.getElem?_cons_zero, Option.some.injEq] at hi
      subst hi
      exact h1
    | succ i =>
      simp only [List.getElem?_cons_succ] at hi
      have ha : a.1 + a.2 < ULONG_MOD :=
        hw 0 a (Nat.succ_pos i) (List.getElem?_cons_zero)
      rw [Nat.mod_eq_of_lt ha] at h3
      have := ih _ _ i r h3 hi (fun j q hj hq =>
        hw (j + 1) q (Nat.succ_lt_succ hj) (by rw [List.getElem?_cons_succ]; exact hq))
      omega

/-! ## Claims -/

/-- C1 (the run at the failing input): on a device of 2048 sectors
`mkmbr dev 5 -1` completes the loop, `main` returns 0 and the image written has
one record, with first sector 5 and 4294967295 sectors: the sum of the two
stored fields is far beyond the 2048 sectors of the device. -/
theorem C1_record_beyond_device :
    ∃ st, alloc false ["mkmbr", "dev", "5", "-1"] 2048 0 = Outcome.done st ∧
      records st = [(5, 4294967295)] ∧
      ¬ (5 + 4294967295 ≤ 2048) ∧
      sys2048.st_size / 512 % ULONG_MOD = 2048 ∧
      main sys2048 ["mkmbr", "dev", "5", "-1"]
        = { exit := some 0, usage := false, written := some st.mbr.bytes, closed := true } :=
  ⟨_, rfl, by decide, by decide, by decide, by rfl⟩

/-- C2 (counterexamples): the records of a completed run need not be ordered.
On a device of 2^33 sectors `mkmbr dev 1 10 0x100000005 5` stores the records
(1, 10) and (5, 5), because the start 4294967301 is cut to 32 bits; on a device
of 2048 sectors `mkmbr dev 5 -1 4 10` stores (5, 4294967295) and (4, 10).  In
both the second record starts before the end of the first. -/
theorem C2_counterexample :
    (∃ st, alloc false ["mkmbr", "dev", "1", "10", "0x100000005", "5"] 8589934592 0
        = Outcome.done st ∧
      records st = [(1, 10), (5, 5)] ∧ ¬ (5 ≥ 1 + 10)) ∧
    (∃ st, alloc false ["mkmbr", "dev", "5", "-1", "4", "10"] 2048 0 = Outcome.done st ∧
      records st = [(5, 4294967295), (4, 10)] ∧ ¬ (4 ≥ 5 + 4294967295)) :=
  ⟨⟨_, rfl, by decide, by decide⟩, ⟨_, rfl, by decide, by decide⟩⟩

/-- C2 as amended: when the loop completes and every accepted pair has both
its start and its size below 2^32, the records of the image are ordered and do
not overlap: the first one starts at sector 1 or later and each later one starts
at or after the end of the one before it. -/
theorem C2_ordered_when_32bit (cfg : Bool) (argv : List String) (C e : Nat) (st : LoopState)
    (h : alloc cfg argv C e = Outcome.done st)
    (h32 : ∀ r ∈ st.log, r.1 < UINT32_MOD ∧ r.2 < UINT32_MOD)
    (i : Nat) (hi : i < st.partn) :
    ∃ p, st.mbr.partitions[i]? = some p ∧ (i = 0 → 1 ≤ p.first_sector_lba) ∧
      ∀ j, j + 1 = i → ∃ q, st.mbr.partitions[j]? = some q ∧
        q.first_sector_lba + q.sectors_num_lba ≤ p.first_sector_lba := by
  obtain ⟨hT, hC, -⟩ := alloc_done h
  obtain ⟨r, hr, hp, -⟩ := slot_slice hT hi
  have hr32 := h32 r (List.getElem?_mem hr)
  obtain ⟨hf, -⟩ := entryOf_exact hr32
  refine ⟨entryOf r, hp, ?_, ?_⟩
  · intro h0
    subst h0
    rw [hf]
    cases hlog : st.log with
    | nil => rw [hlog] at hr; simp at hr
    | cons a rest =>
      rw [hlog] at hr hC
      simp only [List.getElem?_cons_zero, Option.some.injEq] at hr
      subst hr
      exact chain_head hC
  · intro j hj
    subst hj
    obtain ⟨q, hq, hpq, -⟩ := slot_slice hT (Nat.lt_of_succ_lt hi)
    have hq32 := h32 q (List.getElem?_mem hq)
    obtain ⟨hqf, hqc⟩ := entryOf_exact hq32
    refine ⟨entryOf q, hpq, ?_⟩
    have hadj := chain_adj _ _ _ _ _ _ hC hq hr
    rw [hqf, hqc, hf]
    have h1 := hq32.1
    have h2 := hq32.2
    simp only [UINT32_MOD, ULONG_MOD] at h1 h2 hadj
    norm_num at h1 h2 hadj
    omega

/-- Witness of `C2_ordered_when_32bit`: `mkmbr dev 1 1000 auto 500 auto auto`
on 2048 sectors, second record. -/
theorem C2_ordered_when_32bit_witness :
    ∃ st, alloc false ["mkmbr", "dev", "1", "1000", "auto", "500", "auto", "auto"] 2048 0
        = Outcome.done st ∧
      (∀ r ∈ st.log, r.1 < UINT32_MOD ∧ r.2 < UINT32_MOD) ∧ 1 < st.partn ∧
      ∃ p, st.mbr.partitions[1]? = some p ∧ (1 = 0 → 1 ≤ p.first_sector_lba) ∧
        ∀ j, j + 1 = 1 → ∃ q, st.mbr.partitions[j]? = some q ∧
          q.first_sector_lba + q.sectors_num_lba ≤ p.first_sector_lba :=
  ⟨_, rfl, by decide, by decide,
    C2_ordered_when_32bit false ["mkmbr", "dev", "1", "1000", "auto", "500", "auto", "auto"]
      2048 0 _ rfl (by decide) 1 (by decide)⟩

/-- C3 (the run at the failing input): on a device of 2048 sectors, in
`mkmbr dev 1 1000 2000 -1` the second request is read with the cursor at 1001 and
resolves to the start 2000 and the size 2^64 - 1, so that `start + size` is far
above the 2048 sectors of the device.  In `unsigned long` arithmetic the sum is
1999, the check of line 140 passes, the request is accepted, and `main` calls
`write` with an image of two records and returns 0. -/
theorem C3_wrapped_request_is_written :
    (∃ st st1 st2,
      headState false ["mkmbr", "dev", "1", "1000", "2000", "-1"] 2048 0 1 = some st ∧
      st.next = 1001 ∧
      guard ["mkmbr", "dev", "1", "1000", "2000", "-1"] 2048 st = true ∧
      ["mkmbr", "dev", "1", "1000", "2000", "-1"][st.argn]? = some "2000" ∧
      ["mkmbr", "dev", "1", "1000", "2000", "-1"][st.argn + 1]? = some "-1" ∧
      resolveStart false "2000" st = Outcome.done st1 ∧
      resolveSize false 2048 "-1" st1 = Outcome.done st2 ∧
      st2.start = 2000 ∧ st2.size = 18446744073709551615 ∧
      st2.start + st2.size > 2048 ∧ (st2.start + st2.size) % ULONG_MOD = 1999) ∧
    (∃ st, alloc false ["mkmbr", "dev", "1", "1000", "2000", "-1"] 2048 0 = Outcome.done st ∧
      st.log = [(1, 1000), (2000, 18446744073709551615)] ∧
      records st = [(1, 1000), (2000, 4294967295)] ∧
      sys2048.st_size / 512 % ULONG_MOD = 2048 ∧
      main sys2048 ["mkmbr", "dev", "1", "1000", "2000", "-1"]
        = { exit := some 0, usage := false, written := some st.mbr.bytes, closed := true }) :=
  ⟨⟨_, _, _, rfl, by decide, by decide, by decide, by decide, rfl, rfl, by decide, by decide,
      by decide, by decide⟩,
    ⟨_, rfl, by decide, by decide, by decide, by rfl⟩⟩

/-- C4: when the loop completes, every populated entry `i` (below `partn`, which
is at most 4) holds the accepted pair `(s, z)` number `i` converted to 32 bits, and
the 16 bytes of the image at offset `446 + 16 * i` are `00`, `00 00 00`, `83`,
`00 00 00`, then four bytes `a0 a1 a2 a3` and four bytes `b0 b1 b2 b3`, each below
256, with `first_sector_lba = a0 + 256 a1 + 65536 a2 + 16777216 a3` and
`sectors_num_lba = b0 + 256 b1 + 65536 b2 + 16777216 b3`: the two fields in
little-endian order. -/
theorem C4_entry_bytes (cfg : Bool) (argv : List String) (C e : Nat) (st : LoopState)
    (i : Nat) (h : alloc cfg argv C e = Outcome.done st) (hi : i < st.partn) :
    st.partn ≤ 4 ∧ ∃ p s z, st.log[i]? = some (s, z) ∧ st.mbr.partitions[i]? = some p ∧
      p.first_sector_lba = s % UINT32_MOD ∧ p.sectors_num_lba = z % UINT32_MOD ∧
      ∃ a0 a1 a2 a3 b0 b1 b2 b3 : Nat,
        slice st.mbr.bytes (446 + 16 * i) 16
          = [0x00, 0x00, 0x00, 0x00, 0x83, 0x00, 0x00, 0x00,
             a0, a1, a2, a3, b0, b1, b2, b3] ∧
        (a0 < 256 ∧ a1 < 256 ∧ a2 < 256 ∧ a3 < 256) ∧
        (b0 < 256 ∧ b1 < 256 ∧ b2 < 256 ∧ b3 < 256) ∧
        p.first_sector_lba = a0 + 256 * a1 + 65536 * a2 + 16777216 * a3 ∧
        p.sectors_num_lba = b0 + 256 * b1 + 65536 * b2 + 16777216 * b3 := by
  obtain ⟨hT, -, -⟩ := alloc_done h
  obtain ⟨r, hr, hp, hb⟩ := slot_slice hT hi
  have h1 : r.1 % UINT32_MOD < 4294967296 := Nat.mod_lt _ (by decide)
  have h2 : r.2 % UINT32_MOD < 4294967296 := Nat.mod_lt _ (by decide)
  refine ⟨hT.2.2, entryOf r, r.1, r.2, hr, hp, rfl, rfl,
    r.1 % UINT32_MOD % 256, r.1 % UINT32_MOD / 256 % 256, r.1 % UINT32_MOD / 65536 % 256,
    r.1 % UINT32_MOD / 16777216 % 256,
    r.2 % UINT32_MOD % 256, r.2 % UINT32_MOD / 256 % 256, r.2 % UINT32_MOD / 65536 % 256,
    r.2 % UINT32_MOD / 16777216 % 256, hb.trans (entryOf_bytes r), ?_, ?_, ?_, ?_⟩
  · refine ⟨?_, ?_, ?_, ?_⟩ <;> exact Nat.mod_lt _ (by decide)
  · refine ⟨?_, ?_, ?_, ?_⟩ <;> exact Nat.mod_lt _ (by decide)
  · show r.1 % UINT32_MOD = _
    omega
  · show r.2 % UINT32_MOD = _
    omega

/-- Witness of `C4_entry_bytes`: on a device of 2^31 sectors
`mkmbr dev 0x12345678 0x01020304` gives
`00 00 00 00 83 00 00 00 78 56 34 12 04 03 02 01` at offsets 446..461; and
`mkmbr dev 1 100` on 2048 sectors gives
`00 00 00 00 83 00 00 00 01 00 00 00 64 00 00 00` there. -/
theorem C4_entry_bytes_witness :
    (∃ st, alloc false ["mkmbr", "dev", "0x12345678", "0x01020304"] 2147483648 0
        = Outcome.done st ∧ 0 < st.partn ∧
      st.log = [(305419896, 16909060)] ∧
      slice st.mbr.bytes 446 16
        = [0x00, 0x00, 0x00, 0x00, 0x83, 0x00, 0x00, 0x00, 0x78, 0x56, 0x34, 0x12,
           0x04, 0x03, 0x02, 0x01] ∧
      (st.partn ≤ 4 ∧ ∃ p s z, st.log[0]? = some (s, z) ∧ st.mbr.partitions[0]? = some p ∧
        p.first_sector_lba = s % UINT32_MOD ∧ p.sectors_num_lba = z % UINT32_MOD ∧
        ∃ a0 a1 a2 a3 b0 b1 b2 b3 : Nat,
          slice st.mbr.bytes (446 + 16 * 0) 16
            = [0x00, 0x00, 0x00, 0x00, 0x83, 0x00, 0x00, 0x00,
               a0, a1, a2, a3, b0, b1, b2, b3] ∧
          (a0 < 256 ∧ a1 < 256 ∧ a2 < 256 ∧ a3 < 256) ∧
          (b0 < 256 ∧ b1 < 256 ∧ b2 < 256 ∧ b3 < 256) ∧
          p.first_sector_lba = a0 + 256 * a1 + 65536 * a2 + 16777216 * a3 ∧
          p.sectors_num_lba = b0 + 256 * b1 + 65536 * b2 + 16777216 * b3)) ∧
    (∃ st, alloc false ["mkmbr", "dev", "1", "100"] 2048 0 = Outcome.done st ∧
      slice st.mbr.bytes 446 16
        = [0x00, 0x00, 0x00, 0x00, 0x83, 0x00, 0x00, 0x00, 0x01, 0x00, 0x00, 0x00,
           0x64, 0x00, 0x00, 0x00] ∧
      (main sys2048 ["mkmbr", "dev", "1", "100"]).written = some st.mbr.bytes) :=
  ⟨⟨_, rfl, by decide, by decide, by rfl,
      C4_entry_bytes false ["mkmbr", "dev", "0x12345678", "0x01020304"] 2147483648 0 _ 0 rfl
        (by decide)⟩,
    ⟨_, rfl, by rfl, by rfl⟩⟩

/-- C5: whenever `main` calls `write`, the buffer is 512 bytes long, its bytes
0..445 are zero, byte 510 is `0x55` and byte 511 is `0xAA`, and every byte of an
entry slot at or above the number of accepted records is zero. -/
theorem C5_image_fixed_bytes (sys : Sys) (argv : List String) (img : List Nat)
    (h : (main sys argv).written = some img) :
    img.length = 512 ∧ (∀ j, j < 446 → img[j]? = some 0) ∧
      img[510]? = some 0x55 ∧ img[511]? = some 0xAA ∧
      ∃ st, alloc sys.noconvEinval argv (sys.st_size / 512 % ULONG_MOD) sys.errno_entry
          = Outcome.done st ∧ img = st.mbr.bytes ∧ st.partn ≤ 4 ∧
        ∀ i k, st.partn ≤ i → i < 4 → k < 16 → img[446 + 16 * i + k]? = some 0 := by
  obtain ⟨st, hst, rfl⟩ := main_written h
  obtain ⟨hT, -, -⟩ := alloc_done hst
  obtain ⟨h1, h2, h3, h4⟩ := fixed_bytes hT
  refine ⟨h1, h2, h3, h4, st, hst, rfl, hT.2.2, ?_⟩
  intro i k hi1 hi2 hk
  rw [slice_getElem? (free_slice hT hi1 hi2) hk, List.getElem?_replicate, if_pos hk]

/-- Witness of `C5_image_fixed_bytes`: `mkmbr dev 1 100` on 2048 sectors. -/
theorem C5_image_fixed_bytes_witness :
    ∃ img, (main sys2048 ["mkmbr", "dev", "1", "100"]).written = some img ∧
      img.length = 512 ∧ (∀ j, j < 446 → img[j]? = some 0) ∧
      img[510]? = some 0x55 ∧ img[511]? = some 0xAA ∧
      ∃ st, alloc sys2048.noconvEinval ["mkmbr", "dev", "1", "100"]
          (sys2048.st_size / 512 % ULONG_MOD) sys2048.errno_entry
          = Outcome.done st ∧ img = st.mbr.bytes ∧ st.partn ≤ 4 ∧
        ∀ i k, st.partn ≤ i → i < 4 → k < 16 → img[446 + 16 * i + k]? = some 0 :=
  ⟨_, rfl, C5_image_fixed_bytes sys2048 ["mkmbr", "dev", "1", "100"] _ rfl⟩

/-- C6 (counterexample): on a device of 2^33 sectors `mkmbr dev 0x100000000 16`
is accepted with `start = 4294967296`, and the word read back from the image at
offset 446 + 8 is 0. -/
theorem C6_counterexample :
    ∃ st, alloc false ["mkmbr", "dev", "0x100000000", "16"] 8589934592 0 = Outcome.done st ∧
      st.partn = 1 ∧ st.log = [(4294967296, 16)] ∧
      read32 st.mbr.bytes (446 + 16 * 0 + 8) = 0 ∧ (0 : Nat) ≠ 4294967296 :=
  ⟨_, rfl, by decide, by decide, by rfl, by decide⟩

/-- C6 as amended: when the loop completes, every accepted pair has a populated
slot, and for every accepted pair `(start, size)` whose two values are below
2^32 the little-endian words read back from the image at offsets
`446 + 16 * i + 8` and `446 + 16 * i + 12` of its slot `i` are exactly `start`
and `size`. -/
theorem C6_roundtrip_32bit (cfg : Bool) (argv : List String) (C e : Nat) (st : LoopState)
    (i s z : Nat) (h : alloc cfg argv C e = Outcome.done st)
    (hi : st.log[i]? = some (s, z)) (hs : s < UINT32_MOD) (hz : z < UINT32_MOD) :
    st.log.length = st.partn ∧ i < st.partn ∧
      read32 st.mbr.bytes (446 + 16 * i + 8) = s ∧
      read32 st.mbr.bytes (446 + 16 * i + 12) = z := by
  obtain ⟨hT, -, -⟩ := alloc_done h
  have hlt : i < st.partn := by
    rw [← hT.2.1]
    exact (List.getElem?_eq_some_iff.mp hi).1
  obtain ⟨r, hr, -, hb⟩ := slot_slice hT hlt
  rw [hi] at hr
  injection hr with hr
  subst hr
  refine ⟨hT.2.1, hlt, ?_, ?_⟩
  · rw [read32_slice hb (by decide), (read32_entry (s, z)).1]
    exact Nat.mod_eq_of_lt hs
  · rw [read32_slice hb (by decide), (read32_entry (s, z)).2]
    exact Nat.mod_eq_of_lt hz

/-- Witness of `C6_roundtrip_32bit`: the third request of
`mkmbr dev 1 1000 auto 500 auto auto` on 2048 sectors. -/
theorem C6_roundtrip_32bit_witness :
    ∃ st, alloc false ["mkmbr", "dev", "1", "1000", "auto", "500", "auto", "auto"] 2048 0
        = Outcome.done st ∧
      st.log[2]? = some (1501, 547) ∧ 1501 < UINT32_MOD ∧ 547 < UINT32_MOD ∧
      (st.log.length = st.partn ∧ 2 < st.partn ∧
        read32 st.mbr.bytes (446 + 16 * 2 + 8) = 1501 ∧
        read32 st.mbr.bytes (446 + 16 * 2 + 12) = 547) :=
  ⟨_, rfl, by decide, by decide, by decide,
    C6_roundtrip_32bit false ["mkmbr", "dev", "1", "1000", "auto", "500", "auto", "auto"]
      2048 0 _ 2 1501 547 rfl (by decide) (by decide) (by decide)⟩

/-- C7 (the run at the failing input): on a device of 2048 sectors
`mkmbr dev 3000 auto` resolves the length to `2048 - 3000` in `unsigned long`
arithmetic, that is 2^64 - 952; `start + size` wraps to 2048, the request is
accepted, `main` returns 0 and the image holds the record (3000, 4294966344). -/
theorem C7_auto_length_past_device :
    ∃ st, alloc false ["mkmbr", "dev", "3000", "auto"] 2048 0 = Outcome.done st ∧
      st.log = [(3000, 18446744073709550664)] ∧
      records st = [(3000, 4294966344)] ∧
      sys2048.st_size / 512 % ULONG_MOD = 2048 ∧
      main sys2048 ["mkmbr", "dev", "3000", "auto"]
        = { exit := some 0, usage := false, written := some st.mbr.bytes, closed := true } :=
  ⟨_, rfl, by decide, by decide, by decide, by rfl⟩

/-- C8 (the run at the failing input): on a device of 2048 sectors, in
`mkmbr dev 5 -1 auto 10` the first request is accepted with start 5 and size
2^64 - 1 and stored as the record (5, 4294967295); `next = start + size` wraps
to 4.  The `auto` start of the second request resolves to 4, which is neither
the end of the accepted request nor the end of the stored record; the request is
accepted as the record (4, 10), which lies before the first one, and `main`
writes the image and returns 0.  On the same device the run
`mkmbr dev 1 1000 auto 500 auto auto`, where no sum wraps, gives the records
(1, 1000), (1001, 500), (1501, 547) and an all-zero fourth entry. -/
theorem C8_auto_start_after_wrap :
    (∃ st st1, headState false ["mkmbr", "dev", "5", "-1", "auto", "10"] 2048 0 1 = some st ∧
      st.log = [(5, 18446744073709551615)] ∧ records st = [(5, 4294967295)] ∧
      st.next = 4 ∧ guard ["mkmbr", "dev", "5", "-1", "auto", "10"] 2048 st = true ∧
      ["mkmbr", "dev", "5", "-1", "auto", "10"][st.argn]? = some "auto" ∧
      resolveStart false "auto" st = Outcome.done st1 ∧ st1.start = 4 ∧
      st1.start ≠ 5 + 18446744073709551615 ∧ st1.start ≠ 5 + 4294967295) ∧
    (∃ st, alloc false ["mkmbr", "dev", "5", "-1", "auto", "10"] 2048 0 = Outcome.done st ∧
      st.log = [(5, 18446744073709551615), (4, 10)] ∧
      records st = [(5, 4294967295), (4, 10)] ∧
      main sys2048 ["mkmbr", "dev", "5", "-1", "auto", "10"]
        = { exit := some 0, usage := false, written := some st.mbr.bytes, closed := true }) ∧
    (∃ st, alloc false ["mkmbr", "dev", "1", "1000", "auto", "500", "auto", "auto"] 2048 0
        = Outcome.done st ∧
      records st = [(1, 1000), (1001, 500), (1501, 547)] ∧
      st.mbr.partitions[3]? = some partition_zero ∧
      slice st.mbr.bytes (446 + 16 * 3) 16 = List.replicate 16 0) :=
  ⟨⟨_, _, rfl, by decide, by decide, by decide, by decide, by decide, rfl, by decide,
      by decide, by decide⟩,
    ⟨_, rfl, by decide, by decide, by rfl⟩,
    ⟨_, rfl, by decide, by decide, by rfl⟩⟩

/-- C9 (counterexamples): on a device of 1 sector `mkmbr dev auto auto` never
enters the loop and writes an image without any record; on a device of 2^32 + 1
sectors it resolves the size to 2^32 and stores the record (1, 0). -/
theorem C9_counterexample :
    (∃ st, alloc false ["mkmbr", "dev", "auto", "auto"] 1 0 = Outcome.done st ∧
      st.partn = 0 ∧ records st = [] ∧
      main (sysFile 512) ["mkmbr", "dev", "auto", "auto"]
        = { exit := some 0, usage := false, written := some st.mbr.bytes, closed := true }) ∧
    (∃ st, alloc false ["mkmbr", "dev", "auto", "auto"] 4294967297 0 = Outcome.done st ∧
      st.log = [(1, 4294967296)] ∧ records st = [(1, 0)]) :=
  ⟨⟨_, rfl, by decide, by decide, by rfl⟩, ⟨_, rfl, by decide, by decide⟩⟩

/-- C9 as amended: on a device of `N` sectors with `2 <= N <= 2^32`, the single
pair `auto auto` completes the loop with exactly one populated entry, whose
first sector is 1 and whose sector count is `N - 1`. -/
theorem C9_auto_auto (cfg : Bool) (prog dev : String) (N e : Nat) (h2 : 2 ≤ N)
    (h32 : N ≤ UINT32_MOD) :
    ∃ st, alloc cfg [prog, dev, "auto", "auto"] N e = Outcome.done st ∧
      st.partn = 1 ∧ st.log = [(1, N - 1)] ∧ records st = [(1, N - 1)] := by
  have hM : N < ULONG_MOD := lt_of_le_of_lt h32 (by decide)
  have hsz : (N + ULONG_MOD - 1) % ULONG_MOD = N - 1 := by
    simp only [ULONG_MOD] at hM ⊢
    omega
  have hsum : (1 + (N - 1)) % ULONG_MOD = N := by
    simp only [ULONG_MOD] at hM ⊢
    omega
  have h32' : (N - 1) % UINT32_MOD = N - 1 := by
    simp only [UINT32_MOD] at h32 ⊢
    omega
  have hg : guard [prog, dev, "auto", "auto"] N (loopInit e) = true := by
    simp [guard, loopInit]; omega
  have hb : body cfg [prog, dev, "auto", "auto"] N (loopInit e) = Outcome.done
      { loopInit e with
        partn := 1, start := 1, size := N - 1, next := N,
        mbr := setPartition mbr_init 0 1 (N - 1), log := [(1, N - 1)] } := by
    simp [body, loopInit, resolveStart, resolveSize, commit, hsz, hsum]
  have ha : ∃ st, alloc cfg [prog, dev, "auto", "auto"] N e = Outcome.done st ∧
      st.partn = 1 ∧ st.log = [(1, N - 1)] := by
    refine ⟨_, (loop_step hg hb).trans (loop_stop ?_), ?_, ?_⟩
    · simp [guard]
    · rfl
    · rfl
  obtain ⟨st, ha, hp, hl⟩ := ha
  refine ⟨st, ha, hp, hl, ?_⟩
  rw [records_eq (alloc_done ha).1, hl, List.map_cons, List.map_nil, h32',
    Nat.mod_eq_of_lt (by decide : 1 < UINT32_MOD)]

/-- Witness of `C9_auto_auto`: on 2048 sectors `mkmbr dev auto auto` gives the
record (1, 2047), bytes 454..461 of the image being `01 00 00 00 FF 07 00 00`. -/
theorem C9_auto_auto_witness :
    2 ≤ 2048 ∧ 2048 ≤ UINT32_MOD ∧
    (∃ st, alloc false ["mkmbr", "dev", "auto", "auto"] 2048 0 = Outcome.done st ∧
      st.partn = 1 ∧ st.log = [(1, 2048 - 1)] ∧ records st = [(1, 2048 - 1)]) ∧
    (main sys2048 ["mkmbr", "dev", "auto", "auto"]).written.map (fun img => slice img 454 8)
      = some [0x01, 0x00, 0x00, 0x00, 0xFF, 0x07, 0x00, 0x00] :=
  ⟨by decide, by decide, C9_auto_auto false "mkmbr" "dev" 2048 0 (by decide) (by decide),
    by rfl⟩

/-- C10 (counterexamples): on a device of 1 sector `mkmbr dev 1 1` has
`start + size = capacity + 1`, yet the loop is never entered, nothing is rejected
and `main` writes an empty table and returns 0; on a device of 2^33 sectors
`mkmbr dev 0x100000000 0x100000000` has `start + size = capacity` and is
accepted, but the record stored is (0, 0). -/
theorem C10_counterexample :
    (∃ st, alloc false ["mkmbr", "dev", "1", "1"] 1 0 = Outcome.done st ∧
      st.partn = 0 ∧ records st = [] ∧ 1 + 1 = 1 + 1 ∧
      main (sysFile 512) ["mkmbr", "dev", "1", "1"]
        = { exit := some 0, usage := false, written := some st.mbr.bytes, closed := true }) ∧
    (∃ st, alloc false ["mkmbr", "dev", "0x100000000", "0x100000000"] 8589934592 0
        = Outcome.done st ∧
      st.log = [(4294967296, 4294967296)] ∧ 4294967296 + 4294967296 = 8589934592 ∧
      records st = [(0, 0)]) :=
  ⟨⟨_, rfl, by decide, by decide, by decide, by rfl⟩, ⟨_, rfl, by decide, by decide, by decide⟩⟩

/-- C10 as amended: on a device of `C >= 2` sectors, let the first request have
a literal start and a literal length that `strtol` converts without error to
`s >= 1` and `n >= 1`.  The request is processed.  If `s + n <= C` it is
accepted and the record stored is `(s mod 2^32, n mod 2^32)`, which is `(s, n)`
when `C <= 2^32`.  If `s + n > C`, in particular if `s + n = C + 1`, the run ends
at `err_exit` with `EINVAL` and no record. -/
theorem C10_capacity_boundary (cfg : Bool) (prog dev t1 t2 : String) (rest : List String)
    (s n : Int) (C e : Nat) (h1 : t1 ≠ "auto") (h2 : t2 ≠ "auto")
    (hs : strtol cfg t1 = (s, none)) (hn : strtol cfg t2 = (n, none))
    (hs1 : 1 ≤ s) (hn1 : 1 ≤ n) (hC : 2 ≤ C) :
    guard (prog :: dev :: t1 :: t2 :: rest) C (loopInit e) = true ∧
    (s + n ≤ (C : Int) →
      ∃ st1, body cfg (prog :: dev :: t1 :: t2 :: rest) C (loopInit e) = Outcome.done st1 ∧
        st1.partn = 1 ∧ st1.log = [(s.toNat, n.toNat)] ∧
        records st1 = [(s.toNat % UINT32_MOD, n.toNat % UINT32_MOD)] ∧
        (C ≤ UINT32_MOD → records st1 = [(s.toNat, n.toNat)])) ∧
    ((C : Int) < s + n →
      ∃ st1, alloc cfg (prog :: dev :: t1 :: t2 :: rest) C e = Outcome.error st1 ∧
        st1.errno = EINVAL ∧ st1.partn = 0 ∧ st1.log = []) := by
  have rs := strtol_range cfg t1
  have rn := strtol_range cfg t2
  rw [hs] at rs
  rw [hn] at rn
  have bs := (toULong_of_nonneg (by omega : (0 : Int) ≤ s) rs.2).2
  have bn := (toULong_of_nonneg (by omega : (0 : Int) ≤ n) rn.2).2
  simp only at bs bn
  have hmod : (s.toNat + n.toNat) % ULONG_MOD = s.toNat + n.toNat := by
    apply Nat.mod_eq_of_lt
    simp only [ULONG_MOD]
    omega
  have hg : guard (prog :: dev :: t1 :: t2 :: rest) C (loopInit e) = true := by
    simp [guard, loopInit]; omega
  have hbody := body_literals cfg (prog :: dev :: t1 :: t2 :: rest) C (loopInit e) t1 t2
    (by simp [loopInit]) (by simp [loopInit]) h1 h2 hs hn
    (by omega) (by omega)
  refine ⟨hg, ?_, ?_⟩
  · intro hle
    have hc : ¬ (s.toNat < 1 ∨ (s.toNat + n.toNat) % ULONG_MOD > C) := by
      rw [hmod]; omega
    have hb : ∃ st1, body cfg (prog :: dev :: t1 :: t2 :: rest) C (loopInit e)
        = Outcome.done st1 ∧ st1.partn = 1 ∧ st1.log = [(s.toNat, n.toNat)] := by
      exact ⟨_, hbody.trans (commit_accept hc), rfl, rfl⟩
    obtain ⟨st1, hb, hp, hl⟩ := hb
    have hT : TableInv st1 := tableInv_step (tableInv_init e) hg hb
    have hr : records st1 = [(s.toNat % UINT32_MOD, n.toNat % UINT32_MOD)] := by
      rw [records_eq hT, hl, List.map_cons, List.map_nil]
    refine ⟨st1, hb, hp, hl, hr, ?_⟩
    intro h32
    rw [hr, Nat.mod_eq_of_lt (by omega), Nat.mod_eq_of_lt (by omega)]
  · intro hgt
    have hc : (s.toNat < 1 ∨ (s.toNat + n.toNat) % ULONG_MOD > C) := by
      rw [hmod]; omega
    have hb : ∃ st1, body cfg (prog :: dev :: t1 :: t2 :: rest) C (loopInit e)
        = Outcome.error st1 ∧ st1.errno = EINVAL ∧ st1.partn = 0 ∧ st1.log = [] := by
      exact ⟨_, hbody.trans (commit_reject hc), rfl, rfl, rfl⟩
    obtain ⟨st1, hb, he, hp, hl⟩ := hb
    exact ⟨st1, loop_abort hg hb, he, hp, hl⟩

/-- Witness of `C10_capacity_boundary`: `mkmbr dev 0x10 2032` on 2048 sectors
(16 + 2032 = 2048). -/
theorem C10_capacity_boundary_witness :
    "0x10" ≠ "auto" ∧ "2032" ≠ "auto" ∧ strtol false "0x10" = (16, none) ∧
    strtol false "2032" = (2032, none) ∧ (1 : Int) ≤ 16 ∧ (1 : Int) ≤ 2032 ∧ 2 ≤ 2048 ∧
    (guard ("mkmbr" :: "dev" :: "0x10" :: "2032" :: []) 2048 (loopInit 0) = true ∧
    ((16 : Int) + 2032 ≤ ((2048 : Nat) : Int) →
      ∃ st1, body false ("mkmbr" :: "dev" :: "0x10" :: "2032" :: []) 2048 (loopInit 0)
          = Outcome.done st1 ∧
        st1.partn = 1 ∧ st1.log = [((16 : Int).toNat, (2032 : Int).toNat)] ∧
        records st1 = [((16 : Int).toNat % UINT32_MOD, (2032 : Int).toNat % UINT32_MOD)] ∧
        (2048 ≤ UINT32_MOD → records st1 = [((16 : Int).toNat, (2032 : Int).toNat)])) ∧
    (((2048 : Nat) : Int) < 16 + 2032 →
      ∃ st1, alloc false ("mkmbr" :: "dev" :: "0x10" :: "2032" :: []) 2048 0
          = Outcome.error st1 ∧
        st1.errno = EINVAL ∧ st1.partn = 0 ∧ st1.log = [])) :=
  ⟨by decide, by decide, by decide, by decide, by decide, by decide, by decide,
    C10_capacity_boundary false "mkmbr" "dev" "0x10" "2032" [] 16 2032 2048 0
      (by decide) (by decide) (by decide) (by decide) (by decide) (by decide) (by decide)⟩

/-- C11 (counterexample): on a device of 2048 sectors `mkmbr dev 1 0` is
accepted: the loop completes, `main` returns 0 and the image written holds the
record (1, 0), whose sector count is 0. -/
theorem C11_counterexample :
    ∃ st, alloc false ["mkmbr", "dev", "1", "0"] 2048 0 = Outcome.done st ∧
      st.log = [(1, 0)] ∧ records st = [(1, 0)] ∧
      main sys2048 ["mkmbr", "dev", "1", "0"]
        = { exit := some 0, usage := false, written := some st.mbr.bytes, closed := true } :=
  ⟨_, rfl, by decide, by decide, by rfl⟩

/-- C11 as amended: in a pass of a run whose two tokens resolve to a start `s`
and to the size 0, nothing is rejected for being empty.  If `next <= s` and
`s <= blkdev_size` the request is accepted: the pair `(s, 0)` is logged, a
record with sector count 0 is added to the table and the cursor becomes `s`.
Otherwise the run ends at `err_exit` with `EINVAL`. -/
theorem C11_zero_size (cfg : Bool) (argv : List String) (C e k : Nat)
    (st st1 st2 : LoopState) (a b : String)
    (hk : headState cfg argv C e k = some st) (hg : guard argv C st = true)
    (ha : argv[st.argn]? = some a) (hb : argv[st.argn + 1]? = some b)
    (hs : resolveStart cfg a st = Outcome.done st1)
    (hz : resolveSize cfg C b st1 = Outcome.done st2) (h0 : st2.size = 0) :
    (st.next ≤ st2.start ∧ st2.start ≤ C →
      ∃ st3, body cfg argv C st = Outcome.done st3 ∧
        st3.log = st.log ++ [(st2.start, 0)] ∧ st3.next = st2.start ∧
        records st3 = records st ++ [(st2.start % UINT32_MOD, 0)]) ∧
    (¬ (st.next ≤ st2.start ∧ st2.start ≤ C) →
      ∃ st3, alloc cfg argv C e = Outcome.error st3 ∧ st3.errno = EINVAL) := by
  obtain ⟨hT, hC, -⟩ := headState_inv k st hk
  have hnlt : st.next < ULONG_MOD := chain_next_lt _ _ _ hC (by decide)
  have hbody := body_commit (C := C) ha hb hs hz
  have hv := resolveStart_value hs
  obtain ⟨hst, -⟩ := resolveSize_value hz
  obtain ⟨s, e1, rfl⟩ := resolveStart_done hs
  obtain ⟨z, e2, rfl⟩ := resolveSize_done hz
  simp only at h0 hv hst ⊢
  subst h0
  have hslt : s < ULONG_MOD := by
    rcases hv with ⟨-, -, h⟩ | ⟨-, h⟩
    · rw [h]; exact hnlt
    · rw [h]; exact toULong_lt _
  have hmod : (s + 0) % ULONG_MOD = s := by
    rw [Nat.add_zero]; exact Nat.mod_eq_of_lt hslt
  constructor
  · intro hacc
    have hc : ¬ (s < st.next ∨ (s + 0) % ULONG_MOD > C) := by
      rw [hmod]; omega
    have hb3 := hbody.trans (commit_accept hc)
    have hT3 := tableInv_step hT hg hb3
    refine ⟨_, hb3, rfl, hmod, ?_⟩
    have h3 := records_eq hT3
    rw [records_eq hT]
    refine h3.trans ?_
    show List.map _ (st.log ++ [(s, 0)]) = _
    rw [List.map_append]
    rfl
  · intro hrej
    have hc : s < st.next ∨ (s + 0) % ULONG_MOD > C := by
      rw [hmod]; omega
    exact ⟨_, alloc_of_head_error hk hg (hbody.trans (commit_reject hc)), rfl⟩

/-- Witness of `C11_zero_size`: the second request of `mkmbr dev 1 10 20 0` on
2048 sectors is accepted as the record (20, 0). -/
theorem C11_zero_size_witness :
    ∃ st st1 st2,
      headState false ["mkmbr", "dev", "1", "10", "20", "0"] 2048 0 1 = some st ∧
      guard ["mkmbr", "dev", "1", "10", "20", "0"] 2048 st = true ∧
      ["mkmbr", "dev", "1", "10", "20", "0"][st.argn]? = some "20" ∧
      ["mkmbr", "dev", "1", "10", "20", "0"][st.argn + 1]? = some "0" ∧
      resolveStart false "20" st = Outcome.done st1 ∧
      resolveSize false 2048 "0" st1 = Outcome.done st2 ∧ st2.size = 0 ∧
      st.next ≤ st2.start ∧ st2.start ≤ 2048 ∧
      ∃ st3, body false ["mkmbr", "dev", "1", "10", "20", "0"] 2048 st = Outcome.done st3 ∧
        st3.log = st.log ++ [(st2.start, 0)] ∧ st3.next = st2.start ∧
        records st3 = records st ++ [(st2.start % UINT32_MOD, 0)] :=
  ⟨_, _, _, rfl, by decide, by decide, by decide, rfl, rfl, by decide, by decide, by decide,
    (C11_zero_size false ["mkmbr", "dev", "1", "10", "20", "0"] 2048 0 1 _ _ _ "20" "0"
      rfl (by decide) (by decide) (by decide) rfl rfl (by decide)).1
      ⟨by decide, by decide⟩⟩

/-- C12 (the runs at the failing inputs): on a device of 2048 sectors
`mkmbr dev 10 -5` is accepted (`strtol` returns -5, the size is 2^64 - 5, and
`start + size` wraps to 5) and stored as the record (10, 4294967291);
`mkmbr dev -5 10` is accepted (start 2^64 - 5, the sum wraps to 5) and stored as
the record (4294967291, 10).  In both runs `main` writes the image and
returns 0. -/
theorem C12_negative_literal_accepted :
    (∃ st, alloc false ["mkmbr", "dev", "10", "-5"] 2048 0 = Outcome.done st ∧
      strtol false "-5" = (-5, none) ∧
      st.log = [(10, 18446744073709551611)] ∧ records st = [(10, 4294967291)] ∧
      (10 + 18446744073709551611) % ULONG_MOD = 5 ∧
      main sys2048 ["mkmbr", "dev", "10", "-5"]
        = { exit := some 0, usage := false, written := some st.mbr.bytes, closed := true }) ∧
    (∃ st, alloc false ["mkmbr", "dev", "-5", "10"] 2048 0 = Outcome.done st ∧
      st.log = [(18446744073709551611, 10)] ∧ records st = [(4294967291, 10)] ∧
      (18446744073709551611 + 10) % ULONG_MOD = 5 ∧
      main sys2048 ["mkmbr", "dev", "-5", "10"]
        = { exit := some 0, usage := false, written := some st.mbr.bytes, closed := true }) :=
  ⟨⟨_, rfl, by decide, by decide, by decide, by decide, by rfl⟩,
    ⟨_, rfl, by decide, by decide, by decide, by rfl⟩⟩

/-- C13 (counterexamples): on a device of 2048 sectors `mkmbr dev 1 2047 0 5`
succeeds, because the loop stops after the first request and never reads the
literal 0; and `mkmbr dev 1 -1 0 5` accepts the literal 0 (the first sum wraps
and leaves the cursor at 0) and writes an image with the record (0, 5). -/
theorem C13_counterexample :
    (∃ st, alloc false ["mkmbr", "dev", "1", "2047", "0", "5"] 2048 0 = Outcome.done st ∧
      records st = [(1, 2047)] ∧
      main sys2048 ["mkmbr", "dev", "1", "2047", "0", "5"]
        = { exit := some 0, usage := false, written := some st.mbr.bytes, closed := true }) ∧
    (∃ st, alloc false ["mkmbr", "dev", "1", "-1", "0", "5"] 2048 0 = Outcome.done st ∧
      records st = [(1, 4294967295), (0, 5)] ∧
      main sys2048 ["mkmbr", "dev", "1", "-1", "0", "5"]
        = { exit := some 0, usage := false, written := some st.mbr.bytes, closed := true }) :=
  ⟨⟨_, rfl, by decide, by rfl⟩, ⟨_, rfl, by decide, by rfl⟩⟩

/-- C13 as amended: as long as no request accepted so far had a sum
`start + size` that wrapped around 2^64, a request that the loop reads and whose
start token is a literal converted to 0 makes the run end at `err_exit`, whatever
its position.  In a run that completes, an accepted pair that comes after pairs
whose sums did not wrap has a start of 1 or more; its entry holds the start
converted to 32 bits, which is 1 or more whenever the start is below 2^32. -/
theorem C13_literal_zero (cfg : Bool) (argv : List String) (C e : Nat) :
    (∀ (k : Nat) (st : LoopState) (a b : String),
      headState cfg argv C e k = some st → guard argv C st = true →
      argv[st.argn]? = some a → argv[st.argn + 1]? = some b →
      a ≠ "auto" → (strtol cfg a).1 = 0 →
      (∀ r ∈ st.log, r.1 + r.2 < ULONG_MOD) →
      ∃ st3, alloc cfg argv C e = Outcome.error st3 ∧ st3.log = st.log) ∧
    (∀ (st : LoopState) (i s z : Nat), alloc cfg argv C e = Outcome.done st →
      st.log[i]? = some (s, z) →
      (∀ j q, j < i → st.log[j]? = some q → q.1 + q.2 < ULONG_MOD) →
      1 ≤ s ∧ ∃ p, st.mbr.partitions[i]? = some p ∧
        p.first_sector_lba = s % UINT32_MOD ∧ (s < UINT32_MOD → 1 ≤ p.first_sector_lba)) := by
  constructor
  · intro k st a b hk hg ha hb hna h0 hw
    obtain ⟨-, hC, -⟩ := headState_inv k st hk
    have hn1 : 1 ≤ st.next := (chain_sound _ _ _ hC hw).1
    rcases resolveStart_total cfg a st with ⟨st1, hs⟩ | ⟨st1, hs⟩
    · have hv := resolveStart_value hs
      rcases resolveSize_total cfg C b st1 with ⟨st2, hz⟩ | ⟨st2, hz⟩
      · obtain ⟨hst, -⟩ := resolveSize_value hz
        have hbody := body_commit (C := C) ha hb hs hz
        obtain ⟨s, e1, rfl⟩ := resolveStart_done hs
        obtain ⟨z, e2, rfl⟩ := resolveSize_done hz
        simp only at hv hst
        have hs0 : s = 0 := by
          rcases hv with ⟨hau, -, -⟩ | ⟨-, h⟩
          · exact absurd hau hna
          · rw [h, h0]; rfl
        subst hs0
        have hc : (0 : Nat) < st.next ∨ (0 + z) % ULONG_MOD > C := Or.inl hn1
        exact ⟨_, alloc_of_head_error hk hg (hbody.trans (commit_reject hc)), rfl⟩
      · obtain ⟨s, e1, rfl⟩ := resolveStart_done hs
        have hlog : st2.log = st.log := by
          unfold resolveSize at hz
          split at hz
          · cases hz
          · simp only at hz
            split at hz
            · injection hz with hz; subst hz; rfl
            · cases hz
        exact ⟨st2, alloc_of_head_error hk hg (body_size_error ha hb hs hz), hlog⟩
    · have hlog : st1.log = st.log := by
        unfold resolveStart at hs
        split at hs
        · cases hs
        · simp only at hs
          split at hs
          · injection hs with hs; subst hs; rfl
          · cases hs
      exact ⟨st1, alloc_of_head_error hk hg (body_start_error ha hs), hlog⟩
  · intro st i s z h hi hw
    obtain ⟨hT, hC, -⟩ := alloc_done h
    have hs1 : 1 ≤ s := chain_prefix_sound _ _ _ i (s, z) hC hi hw
    have hlt : i < st.partn := by
      rw [← hT.2.1]
      exact (List.getElem?_eq_some_iff.mp hi).1
    obtain ⟨r, hr, hp, -⟩ := slot_slice hT hlt
    rw [hi] at hr
    injection hr with hr
    subst hr
    refine ⟨hs1, entryOf (s, z), hp, rfl, ?_⟩
    intro h32
    show 1 ≤ s % UINT32_MOD
    rw [Nat.mod_eq_of_lt h32]
    exact hs1

/-- Witness of `C13_literal_zero`: in `mkmbr dev 1 0x100000000 0 5` on a device
of 2^33 sectors the first request is accepted with a size of 2^32, the cursor is
4294967297, the second request starts at the literal 0 and the run ends at
`err_exit`. -/
theorem C13_literal_zero_witness :
    ∃ st, headState false ["mkmbr", "dev", "1", "0x100000000", "0", "5"] 8589934592 0 1
        = some st ∧
      guard ["mkmbr", "dev", "1", "0x100000000", "0", "5"] 8589934592 st = true ∧
      ["mkmbr", "dev", "1", "0x100000000", "0", "5"][st.argn]? = some "0" ∧
      ["mkmbr", "dev", "1", "0x100000000", "0", "5"][st.argn + 1]? = some "5" ∧
      "0" ≠ "auto" ∧ (strtol false "0").1 = 0 ∧
      st.log = [(1, 4294967296)] ∧ st.next = 4294967297 ∧
      (∀ r ∈ st.log, r.1 + r.2 < ULONG_MOD) ∧
      ∃ st3, alloc false ["mkmbr", "dev", "1", "0x100000000", "0", "5"] 8589934592 0
          = Outcome.error st3 ∧ st3.log = st.log :=
  ⟨_, rfl, by decide, by decide, by decide, by decide, by decide, by decide, by decide,
    by decide,
    (C13_literal_zero false ["mkmbr", "dev", "1", "0x100000000", "0", "5"] 8589934592 0).1
      1 _ "0" "5" rfl (by decide) (by decide) (by decide) (by decide) (by decide) (by decide)⟩

/-- C14 (counterexample): with five pairs (`argc = 12`) on a device of 2048
sectors, `main` prints no usage, returns 0 and writes a table holding the first
four pairs; the fifth pair is dropped. -/
theorem C14_counterexample :
    ∃ st, alloc false ["mkmbr", "dev", "1", "10", "auto", "10", "auto", "10", "auto", "10",
        "auto", "10"] 2048 0 = Outcome.done st ∧
      records st = [(1, 10), (11, 10), (21, 10), (31, 10)] ∧
      main sys2048 ["mkmbr", "dev", "1", "10", "auto", "10", "auto", "10", "auto", "10",
        "auto", "10"]
        = { exit := some 0, usage := false, written := some st.mbr.bytes, closed := true } :=
  ⟨_, rfl, by decide, by rfl⟩

/-- C14 as amended: an argument vector with more than four pairs (`argc` even
and above 10) passes the argument check, so no usage is printed, and the run is
the run on its first four pairs: the pairs after the fourth are never read. -/
theorem C14_extra_pairs_dropped (sys : Sys) (argv : List String)
    (heven : argv.length % 2 = 0) (hlen : 10 < argv.length) :
    (main sys argv).usage = false ∧ main sys argv = main sys (argv.take 10) := by
  have hA : ¬ (argv.length < 4 ∨ argv.length % 2 ≠ 0) := by omega
  have hlB : (argv.take 10).length = 10 := by
    rw [List.length_take]; omega
  have hB : ¬ ((argv.take 10).length < 4 ∨ (argv.take 10).length % 2 ≠ 0) := by
    rw [hlB]; omega
  have hal : alloc sys.noconvEinval argv (sys.st_size / 512 % ULONG_MOD) sys.errno_entry
      = alloc sys.noconvEinval (argv.take 10) (sys.st_size / 512 % ULONG_MOD)
          sys.errno_entry :=
    loop_congr (by omega) (by omega)
      (fun i hi => (List.getElem?_take_of_lt hi).symm) 4 _ rfl
  have hm := main_congr sys hA hB hal
  refine ⟨?_, hm⟩
  rw [hm]
  unfold main
  simp only
  rw [if_neg hB]
  cases sys.open_fail with
  | some e => rfl
  | none =>
    cases sys.fstat_fail with
    | some e => rfl
    | none =>
      simp only
      cases alloc sys.noconvEinval (argv.take 10) (sys.st_size / 512 % ULONG_MOD)
          sys.errno_entry with
      | done st => simp only; split <;> rfl
      | error st => rfl
      | fault => rfl
      | timeout => rfl

/-- Witness of `C14_extra_pairs_dropped`: five pairs on 2048 sectors. -/
theorem C14_extra_pairs_dropped_witness :
    ["mkmbr", "dev", "1", "10", "auto", "10", "auto", "10", "auto", "10",
        "auto", "10"].length % 2 = 0 ∧
    10 < ["mkmbr", "dev", "1", "10", "auto", "10", "auto", "10", "auto", "10",
        "auto", "10"].length ∧
    (main sys2048 ["mkmbr", "dev", "1", "10", "auto", "10", "auto", "10", "auto", "10",
        "auto", "10"]).usage = false ∧
    main sys2048 ["mkmbr", "dev", "1", "10", "auto", "10", "auto", "10", "auto", "10",
        "auto", "10"]
      = main sys2048 (["mkmbr", "dev", "1", "10", "auto", "10", "auto", "10", "auto", "10",
        "auto", "10"].take 10) :=
  ⟨by decide, by decide,
    C14_extra_pairs_dropped sys2048 ["mkmbr", "dev", "1", "10", "auto", "10", "auto", "10",
      "auto", "10", "auto", "10"] (by decide) (by decide)⟩

/-- C15 (counterexamples): on a device of 2048 sectors `mkmbr dev 12abc 100` is
accepted as the record (12, 100), because `strtol` stops at `a` and reports
nothing; and, where `strtol` leaves `errno` alone when it finds no digits,
`mkmbr dev 1 foo` is accepted as the record (1, 0).  In both runs `main` writes
the image and returns 0. -/
theorem C15_counterexample :
    (∃ st, alloc false ["mkmbr", "dev", "12abc", "100"] 2048 0 = Outcome.done st ∧
      strtol false "12abc" = (12, none) ∧ strtol true "12abc" = (12, none) ∧
      records st = [(12, 100)] ∧
      main sys2048 ["mkmbr", "dev", "12abc", "100"]
        = { exit := some 0, usage := false, written := some st.mbr.bytes, closed := true }) ∧
    (∃ st, alloc false ["mkmbr", "dev", "1", "foo"] 2048 0 = Outcome.done st ∧
      strtol false "foo" = (0, none) ∧ records st = [(1, 0)] ∧
      main sys2048 ["mkmbr", "dev", "1", "foo"]
        = { exit := some 0, usage := false, written := some st.mbr.bytes, closed := true }) :=
  ⟨⟨_, rfl, by decide, by decide, by decide, by rfl⟩, ⟨_, rfl, by decide, by decide, by rfl⟩⟩

/-- C15 as amended: take a pass of a run.  If the start token is handed to
`strtol` and `strtol` sets `errno` to `e1`, or if the start token resolves and
the length token is not `auto` and `strtol` sets `errno` to `e1` for it, then
the run ends at `err_exit` with `errno = e1` before the geometry check: no record
is added, and `main` does not call `write`. -/
theorem C15_strtol_error (sys : Sys) (argv : List String) (k e1 : Nat) (st : LoopState)
    (a b : String)
    (hk : headState sys.noconvEinval argv (sys.st_size / 512 % ULONG_MOD) sys.errno_entry k
      = some st)
    (hg : guard argv (sys.st_size / 512 % ULONG_MOD) st = true)
    (ha : argv[st.argn]? = some a) (hb : argv[st.argn + 1]? = some b) (he : e1 ≠ 0)
    (hbad : (¬ (a = "auto" ∧ 0 < st.next) ∧ (strtol sys.noconvEinval a).2 = some e1) ∨
      ((∃ st1, resolveStart sys.noconvEinval a st = Outcome.done st1) ∧ b ≠ "auto" ∧
        (strtol sys.noconvEinval b).2 = some e1)) :
    ∃ st3, alloc sys.noconvEinval argv (sys.st_size / 512 % ULONG_MOD) sys.errno_entry
        = Outcome.error st3 ∧
      st3.errno = e1 ∧ st3.log = st.log ∧ st3.mbr = st.mbr ∧ st3.next = st.next ∧
      (main sys argv).written = none := by
  rcases hbad with ⟨hna, hst⟩ | ⟨⟨st1, hs⟩, hnb, hst⟩
  · have hs : resolveStart sys.noconvEinval a st = Outcome.error
        { st with errno := e1, start := toULong (strtol sys.noconvEinval a).1 } := by
      unfold resolveStart
      rw [if_neg hna]
      simp only [hst, Option.getD_some]
      rw [if_pos he]
    have hal := alloc_of_head_error hk hg (body_start_error ha hs)
    exact ⟨_, hal, rfl, rfl, rfl, rfl, main_written_none hal⟩
  · have hz : resolveSize sys.noconvEinval (sys.st_size / 512 % ULONG_MOD) b st1
        = Outcome.error
          { st1 with errno := e1, size := toULong (strtol sys.noconvEinval b).1 } := by
      unfold resolveSize
      rw [if_neg hnb]
      simp only [hst, Option.getD_some]
      rw [if_pos he]
    have hal := alloc_of_head_error hk hg (body_size_error ha hb hs hz)
    obtain ⟨s, e2, rfl⟩ := resolveStart_done hs
    exact ⟨_, hal, rfl, rfl, rfl, rfl, main_written_none hal⟩

/-- Witness of `C15_strtol_error`: in `mkmbr dev 1 99999999999999999999` on 2048
sectors the length is out of range for `long` and the run ends with `ERANGE`. -/
theorem C15_strtol_error_witness :
    ∃ st, headState sys2048.noconvEinval ["mkmbr", "dev", "1", "99999999999999999999"]
        (sys2048.st_size / 512 % ULONG_MOD) sys2048.errno_entry 0 = some st ∧
      guard ["mkmbr", "dev", "1", "99999999999999999999"]
        (sys2048.st_size / 512 % ULONG_MOD) st = true ∧
      ["mkmbr", "dev", "1", "99999999999999999999"][st.argn]? = some "1" ∧
      ["mkmbr", "dev", "1", "99999999999999999999"][st.argn + 1]?
        = some "99999999999999999999" ∧
      ERANGE ≠ 0 ∧
      ((∃ st1, resolveStart sys2048.noconvEinval "1" st = Outcome.done st1) ∧
        "99999999999999999999" ≠ "auto" ∧
        (strtol sys2048.noconvEinval "99999999999999999999").2 = some ERANGE) ∧
      ∃ st3, alloc sys2048.noconvEinval ["mkmbr", "dev", "1", "99999999999999999999"]
          (sys2048.st_size / 512 % ULONG_MOD) sys2048.errno_entry = Outcome.error st3 ∧
        st3.errno = ERANGE ∧ st3.log = st.log ∧ st3.mbr = st.mbr ∧ st3.next = st.next ∧
        (main sys2048 ["mkmbr", "dev", "1", "99999999999999999999"]).written = none :=
  ⟨_, rfl, by decide, by decide, by decide, by decide, ⟨⟨_, rfl⟩, by decide, by decide⟩,
    C15_strtol_error sys2048 ["mkmbr", "dev", "1", "99999999999999999999"] 0 ERANGE _
      "1" "99999999999999999999" rfl (by decide) (by decide) (by decide) (by decide)
      (Or.inr ⟨⟨_, rfl⟩, by decide, by decide⟩)⟩

/-- C16 (counterexample): on a device of 2^33 sectors `mkmbr dev 16 0x100000000`
has `start + size = 4294967312`, beyond the 32-bit range, and is accepted; the
size 4294967296 is stored as 0. -/
theorem C16_counterexample :
    ∃ st, alloc false ["mkmbr", "dev", "16", "0x100000000"] 8589934592 0 = Outcome.done st ∧
      st.log = [(16, 4294967296)] ∧ UINT32_MOD ≤ 16 + 4294967296 ∧
      records st = [(16, 0)] :=
  ⟨_, rfl, by decide, by decide, by decide⟩

/-- C16 as amended: on a device of `C < 2^32` sectors, a request read by the
loop whose resolved values have a sum `start + size` that is at least 2^32 and
does not wrap around 2^64 makes the run end at `err_exit` with `EINVAL`; and in
a run that completes, every accepted pair whose sum does not wrap around has
`start + size <= C`, and is stored unchanged in the 32-bit fields of its
entry. -/
theorem C16_out_of_range (cfg : Bool) (argv : List String) (C e : Nat)
    (hC : C < UINT32_MOD) :
    (∀ (k : Nat) (st st1 st2 : LoopState) (a b : String),
      headState cfg argv C e k = some st → guard argv C st = true →
      argv[st.argn]? = some a → argv[st.argn + 1]? = some b →
      resolveStart cfg a st = Outcome.done st1 → resolveSize cfg C b st1 = Outcome.done st2 →
      UINT32_MOD ≤ st2.start + st2.size → st2.start + st2.size < ULONG_MOD →
      ∃ st3, alloc cfg argv C e = Outcome.error st3 ∧ st3.errno = EINVAL) ∧
    (∀ (st : LoopState) (i s z : Nat), alloc cfg argv C e = Outcome.done st →
      st.log[i]? = some (s, z) → s + z < ULONG_MOD →
      s + z ≤ C ∧ ∃ p, st.mbr.partitions[i]? = some p ∧
        p.first_sector_lba = s ∧ p.sectors_num_lba = z) := by
  constructor
  · intro k st st1 st2 a b hk hg ha hb hs hz h32 hnw
    have hc : st2.start < st2.next ∨ (st2.start + st2.size) % ULONG_MOD > C := by
      right
      rw [Nat.mod_eq_of_lt hnw]
      omega
    exact ⟨_, alloc_of_head_error hk hg ((body_commit ha hb hs hz).trans (commit_reject hc)),
      rfl⟩
  · intro st i s z h hi hnw
    obtain ⟨hT, hCh, -⟩ := alloc_done h
    have hm := chain_mem _ _ _ (s, z) hCh (List.getElem?_mem hi)
    simp only at hm
    rw [Nat.mod_eq_of_lt hnw] at hm
    have hlt : i < st.partn := by
      rw [← hT.2.1]
      exact (List.getElem?_eq_some_iff.mp hi).1
    obtain ⟨r, hr, hp, -⟩ := slot_slice hT hlt
    rw [hi] at hr
    injection hr with hr
    subst hr
    have hx := entryOf_exact (r := (s, z)) ⟨by show s < UINT32_MOD; omega,
      by show z < UINT32_MOD; omega⟩
    exact ⟨hm, entryOf (s, z), hp, hx.1, hx.2⟩

/-- Witness of `C16_out_of_range`: `mkmbr dev 1 0x100000000` on 2048 sectors is
rejected. -/
theorem C16_out_of_range_witness :
    ∃ st st1 st2, 2048 < UINT32_MOD ∧
      headState false ["mkmbr", "dev", "1", "0x100000000"] 2048 0 0 = some st ∧
      guard ["mkmbr", "dev", "1", "0x100000000"] 2048 st = true ∧
      ["mkmbr", "dev", "1", "0x100000000"][st.argn]? = some "1" ∧
      ["mkmbr", "dev", "1", "0x100000000"][st.argn + 1]? = some "0x100000000" ∧
      resolveStart false "1" st = Outcome.done st1 ∧
      resolveSize false 2048 "0x100000000" st1 = Outcome.done st2 ∧
      UINT32_MOD ≤ st2.start + st2.size ∧ st2.start + st2.size < ULONG_MOD ∧
      ∃ st3, alloc false ["mkmbr", "dev", "1", "0x100000000"] 2048 0 = Outcome.error st3 ∧
        st3.errno = EINVAL :=
  ⟨_, _, _, by decide, rfl, by decide, by decide, by decide, rfl, rfl, by decide, by decide,
    (C16_out_of_range false ["mkmbr", "dev", "1", "0x100000000"] 2048 0 (by decide)).1
      0 _ _ _ "1" "0x100000000" rfl (by decide) (by decide) (by decide) rfl rfl
      (by decide) (by decide)⟩

/-- C17 (the run at the failing input): on a device of 2048 sectors, in
`mkmbr dev 1 -1 auto 5` the first request is accepted with size 2^64 - 1 and the
cursor goes from 1 down to 0.  At the head of the second pass `next = 0`, the
pass is entered, and the `auto` start is not taken from the cursor but handed to
`strtol`: where `strtol` leaves `errno` alone the start is 0 and the record
(0, 5) is written; where it reports `EINVAL` the run ends at `err_exit`. -/
theorem C17_cursor_wraps_to_zero :
    (∃ st, headState false ["mkmbr", "dev", "1", "-1", "auto", "5"] 2048 0 1 = some st ∧
      (loopInit 0).next = 1 ∧ st.log = [(1, 18446744073709551615)] ∧ st.next = 0 ∧
      guard ["mkmbr", "dev", "1", "-1", "auto", "5"] 2048 st = true ∧
      resolveStart false "auto" st
        = Outcome.done { st with errno := 0, start := toULong (strtol false "auto").1 } ∧
      resolveStart true "auto" st
        = Outcome.error { st with errno := EINVAL,
                                  start := toULong (strtol true "auto").1 }) ∧
    (∃ st, alloc false ["mkmbr", "dev", "1", "-1", "auto", "5"] 2048 0 = Outcome.done st ∧
      records st = [(1, 4294967295), (0, 5)] ∧
      main sys2048 ["mkmbr", "dev", "1", "-1", "auto", "5"]
        = { exit := some 0, usage := false, written := some st.mbr.bytes, closed := true }) ∧
    (∃ st, alloc true ["mkmbr", "dev", "1", "-1", "auto", "5"] 2048 0 = Outcome.error st ∧
      st.errno = EINVAL) :=
  ⟨⟨_, rfl, by decide, by decide, by decide, by decide, rfl, rfl⟩,
    ⟨_, rfl, by decide, by rfl⟩, ⟨_, rfl, by decide⟩⟩

/-- C18: let two argument vectors that pass the argument check share the
tokens `p` read by the first `k` passes, and let the run reach, after those
passes, a cursor `next >= blkdev_size` or four records.  Then the remaining
tokens are never examined: both vectors give the same result of `main` (the same
image written and the same return value), whatever follows `p`. -/
theorem C18_silent_truncation (sys : Sys) (p r r' : List String) (k : Nat) (st : LoopState)
    (hA : 4 ≤ (p ++ r).length ∧ (p ++ r).length % 2 = 0)
    (hB : 4 ≤ (p ++ r').length ∧ (p ++ r').length % 2 = 0)
    (hk : headState sys.noconvEinval (p ++ r) (sys.st_size / 512 % ULONG_MOD)
      sys.errno_entry k = some st)
    (hp : p.length = st.argn)
    (hstop : sys.st_size / 512 % ULONG_MOD ≤ st.next ∨ st.partn = 4) :
    main sys (p ++ r) = main sys (p ++ r') ∧
      alloc sys.noconvEinval (p ++ r) (sys.st_size / 512 % ULONG_MOD) sys.errno_entry
        = Outcome.done st ∧
      alloc sys.noconvEinval (p ++ r') (sys.st_size / 512 % ULONG_MOD) sys.errno_entry
        = Outcome.done st := by
  have harg := headState_argn k st hk
  have hpl : p.length = 2 + 2 * k := hp.trans harg
  have hk' : headState sys.noconvEinval (p ++ r') (sys.st_size / 512 % ULONG_MOD)
      sys.errno_entry k = some st := by
    refine headState_congr k st hk ?_ ?_ ?_
    · rw [List.length_append]; omega
    · rw [List.length_append]; omega
    · intro i hi
      rw [List.getElem?_append_left (by omega), List.getElem?_append_left (by omega)]
  have hgf : ∀ A : List String,
      guard A (sys.st_size / 512 % ULONG_MOD) st = false := by
    intro A
    unfold guard
    rcases hstop with h | h
    · simp [Nat.not_lt.mpr h]
    · simp [h]
  have h1 := alloc_of_head_stop hk (hgf _)
  have h2 := alloc_of_head_stop hk' (hgf _)
  exact ⟨main_congr sys (by omega) (by omega) (h1.trans h2.symm), h1, h2⟩

/-- Witness of `C18_silent_truncation`: on 2048 sectors `mkmbr dev 1 2047`
fills the device; appending the pair `foo -3` changes nothing. -/
theorem C18_silent_truncation_witness :
    ∃ st, headState sys2048.noconvEinval (["mkmbr", "dev", "1", "2047"] ++ [])
        (sys2048.st_size / 512 % ULONG_MOD) sys2048.errno_entry 1 = some st ∧
      (4 ≤ (["mkmbr", "dev", "1", "2047"] ++ ([] : List String)).length ∧
        (["mkmbr", "dev", "1", "2047"] ++ ([] : List String)).length % 2 = 0) ∧
      (4 ≤ (["mkmbr", "dev", "1", "2047"] ++ ["foo", "-3"]).length ∧
        (["mkmbr", "dev", "1", "2047"] ++ ["foo", "-3"]).length % 2 = 0) ∧
      ["mkmbr", "dev", "1", "2047"].length = st.argn ∧
      (sys2048.st_size / 512 % ULONG_MOD ≤ st.next ∨ st.partn = 4) ∧
      (main sys2048 (["mkmbr", "dev", "1", "2047"] ++ [])
          = main sys2048 (["mkmbr", "dev", "1", "2047"] ++ ["foo", "-3"]) ∧
        alloc sys2048.noconvEinval (["mkmbr", "dev", "1", "2047"] ++ [])
          (sys2048.st_size / 512 % ULONG_MOD) sys2048.errno_entry = Outcome.done st ∧
        alloc sys2048.noconvEinval (["mkmbr", "dev", "1", "2047"] ++ ["foo", "-3"])
          (sys2048.st_size / 512 % ULONG_MOD) sys2048.errno_entry = Outcome.done st) :=
  ⟨_, rfl, by decide, by decide, by decide, by decide,
    C18_silent_truncation sys2048 ["mkmbr", "dev", "1", "2047"] [] ["foo", "-3"] 1 _
      (by decide) (by decide) rfl (by decide) (by decide)⟩

/-- C19: on a device of `C < 2^32` sectors, when every token other than `auto`
is converted by `strtol` to an integer in `[0, C]`, a run that completes the
loop stores every resolved value unchanged (the records are the accepted pairs),
every record `(s, z)` has `1 <= s` and `s + z <= C` as natural numbers, and the
records are in ascending order and disjoint: each one ends at or before the
start of every later one. -/
theorem C19_wellformed_layout (cfg : Bool) (argv : List String) (C e : Nat) (st : LoopState)
    (hC : C < UINT32_MOD)
    (htok : ∀ t ∈ argv.drop 2, t ≠ "auto" →
      0 ≤ (strtol cfg t).1 ∧ (strtol cfg t).1 ≤ (C : Int))
    (h : alloc cfg argv C e = Outcome.done st) :
    records st = st.log ∧ st.log.length = st.partn ∧
      (∀ r ∈ records st, 1 ≤ r.1 ∧ r.1 + r.2 ≤ C) ∧
      List.Pairwise (fun a b => a.1 + a.2 ≤ b.1) (records st) := by
  have hinv := loop_done_induct
    (fun st : LoopState => 2 ≤ st.argn ∧ 1 ≤ st.next ∧
      (∀ r ∈ st.log, 1 ≤ r.1 ∧ r.1 + r.2 ≤ st.next ∧ r.1 + r.2 ≤ C) ∧
      List.Pairwise (fun a b : Nat × Nat => a.1 + a.2 ≤ b.1) st.log)
    (fun st0 st1 hP hg hb => by
      obtain ⟨ha, hn, hall, hpw⟩ := hP
      obtain ⟨h1, h2, h3, h4, h5⟩ :=
        body_done_wellformed hC htok ha hn (guard_next hg) hb
      refine ⟨?_, ?_, ?_, ?_⟩
      · show 2 ≤ st1.argn + 2
        omega
      · show 1 ≤ st1.next
        omega
      · show ∀ r ∈ st1.log, 1 ≤ r.1 ∧ r.1 + r.2 ≤ st1.next ∧ r.1 + r.2 ≤ C
        intro r hr
        rw [h4, List.mem_append, List.mem_singleton] at hr
        rcases hr with hr | rfl
        · obtain ⟨q1, q2, q3⟩ := hall r hr
          exact ⟨q1, by omega, q3⟩
        · exact ⟨by show 1 ≤ st1.start; omega, by show st1.start + st1.size ≤ st1.next; omega,
            h2⟩
      · show List.Pairwise _ st1.log
        rw [h4, List.pairwise_append]
        refine ⟨hpw, List.pairwise_singleton _ _, ?_⟩
        intro r hr x hx
        rw [List.mem_singleton] at hx
        subst hx
        obtain ⟨-, q2, -⟩ := hall r hr
        show r.1 + r.2 ≤ st1.start
        omega)
    4 (loopInit e) st
    ⟨Nat.le_refl 2, Nat.le_refl 1, fun r hr => absurd hr (List.not_mem_nil r),
      List.Pairwise.nil⟩ h
  obtain ⟨⟨-, -, hall, hpw⟩, -⟩ := hinv
  obtain ⟨hT, -, -⟩ := alloc_done h
  have hrec : records st = st.log := by
    rw [records_eq hT]
    conv_rhs => rw [← List.map_id st.log]
    apply List.map_congr_left
    intro r hr
    obtain ⟨q1, -, q3⟩ := hall r hr
    have hr1 : r.1 % UINT32_MOD = r.1 := Nat.mod_eq_of_lt (by omega)
    have hr2 : r.2 % UINT32_MOD = r.2 := Nat.mod_eq_of_lt (by omega)
    rw [hr1, hr2]
    rfl
  rw [hrec]
  exact ⟨rfl, hT.2.1, fun r hr => ⟨(hall r hr).1, (hall r hr).2.2⟩, hpw⟩

/-- Witness of `C19_wellformed_layout`: `mkmbr dev 1 1000 auto 500 auto auto` on
2048 sectors. -/
theorem C19_wellformed_layout_witness :
    ∃ st, alloc false ["mkmbr", "dev", "1", "1000", "auto", "500", "auto", "auto"] 2048 0
        = Outcome.done st ∧
      2048 < UINT32_MOD ∧
      (∀ t ∈ ["mkmbr", "dev", "1", "1000", "auto", "500", "auto", "auto"].drop 2,
        t ≠ "auto" → 0 ≤ (strtol false t).1 ∧ (strtol false t).1 ≤ ((2048 : Nat) : Int)) ∧
      records st = [(1, 1000), (1001, 500), (1501, 547)] ∧
      (records st = st.log ∧ st.log.length = st.partn ∧
        (∀ r ∈ records st, 1 ≤ r.1 ∧ r.1 + r.2 ≤ 2048) ∧
        List.Pairwise (fun a b => a.1 + a.2 ≤ b.1) (records st)) :=
  ⟨_, rfl, by decide, by decide, by decide,
    C19_wellformed_layout false
      ["mkmbr", "dev", "1", "1000", "auto", "500", "auto", "auto"] 2048 0 _
      (by decide) (by decide) rfl⟩

/-- C20: when `argc >= 4` and `argc` is even, the loop never reads `argv` out of
range and always ends; at the head of every pass that is entered,
`argn + 1 < argc` and `partn < 4` is a valid index of `mbr.partitions`; and the
number of populated entries, at every head state and when the loop completes,
is at most `min 4 ((argc - 2) / 2)`. -/
theorem C20_index_safety (cfg : Bool) (argv : List String) (C e : Nat)
    (hlen : 4 ≤ argv.length) (heven : argv.length % 2 = 0) :
    alloc cfg argv C e ≠ Outcome.fault ∧ alloc cfg argv C e ≠ Outcome.timeout ∧
    (∀ k st, headState cfg argv C e k = some st → guard argv C st = true →
      st.argn < argv.length ∧ st.argn + 1 < argv.length ∧ st.partn < 4 ∧
        st.partn < st.mbr.partitions.length) ∧
    (∀ k st, headState cfg argv C e k = some st →
      st.partn ≤ min 4 ((argv.length - 2) / 2)) ∧
    (∀ st, alloc cfg argv C e = Outcome.done st →
      st.partn ≤ min 4 ((argv.length - 2) / 2)) := by
  have hhead : ∀ k st, headState cfg argv C e k = some st →
      st.partn ≤ min 4 ((argv.length - 2) / 2) := by
    intro k st hk
    obtain ⟨hT, -, hp⟩ := headState_inv k st hk
    have h1 := headState_argn_le (by omega) heven k st hk
    have h2 := hT.2.2
    rw [Nat.le_min]
    exact ⟨h2, by omega⟩
  refine ⟨loop_ne_fault heven 4 (loopInit e) (by simp [loopInit]), (alloc_total cfg argv C e).1, ?_, hhead, ?_⟩
  · intro k st hk hg
    obtain ⟨hT, -, -⟩ := headState_inv k st hk
    have h1 := guard_argn hg
    have h2 := headState_argn k st hk
    have h3 := guard_partn hg
    refine ⟨h1, by omega, h3, ?_⟩
    rw [hT.1]
    show st.partn < (tableOf st.log).length
    rw [tableOf_length (by rw [hT.2.1]; exact hT.2.2)]
    exact h3
  · intro st h
    obtain ⟨k, hk, -⟩ := alloc_done_head h
    exact hhead k st hk

/-- Witness of `C20_index_safety`: `mkmbr dev 1 1000 auto 500 auto auto`. -/
theorem C20_index_safety_witness :
    4 ≤ ["mkmbr", "dev", "1", "1000", "auto", "500", "auto", "auto"].length ∧
    ["mkmbr", "dev", "1", "1000", "auto", "500", "auto", "auto"].length % 2 = 0 ∧
    (∃ st, alloc false ["mkmbr", "dev", "1", "1000", "auto", "500", "auto", "auto"] 2048 0
        = Outcome.done st ∧ st.partn = 3 ∧
      3 ≤ min 4 ((["mkmbr", "dev", "1", "1000", "auto", "500", "auto", "auto"].length - 2)
        / 2)) ∧
    alloc false ["mkmbr", "dev", "1", "1000", "auto", "500", "auto", "auto"] 2048 0
      ≠ Outcome.fault :=
  ⟨by decide, by decide, ⟨_, rfl, by decide, by decide⟩,
    (C20_index_safety false ["mkmbr", "dev", "1", "1000", "auto", "500", "auto", "auto"]
      2048 0 (by decide) (by decide)).1⟩

end Mkmbr
